import Mathlib

/-!
Verification development for the Rufus web crawler (`src/scraper.py`,
class `RufusClient`).

The crawl controller, relevance engine, URL handling and result
processing are embedded shallowly:

* Python strings are Lean `String`s; all operations are defined over the
  underlying character lists (`String.data`), modelling ASCII text.
* The external collaborators (Selenium rendering + BeautifulSoup
  parsing, nltk tokenisation and stopwords, the sklearn TF-IDF cosine
  similarity) are oracle parameters (`World`, `Collab`): rendering a URL
  is a lookup in a finite page table, returning the final URL after
  redirects and the parsed DOM (`none` models a parse failure);
  `tfidf p t = none` models an exception inside the TF-IDF tier.
* `urllib.parse` (`urljoin`, `urlparse`, `urlsplit`, `urlunsplit`) is
  embedded from the CPython 3.11 sources, for inputs without control
  characters; the `ValueError` raised on bracket-mismatched netlocs is
  modelled by `Option`.
* Python floats are modelled as rationals; the relevance score is
  computed by exact division.
* `self.visited_urls` (a Python set) is modelled as a duplicate-free
  list inside `CrawlState`; `self.base_url` is an `Option String`.

The recursive `scrape`/`extract_data` pair is embedded as a mutual
definition that additionally returns the updated crawl state and the
trace of URLs passed to the render collaborator, in call order.
-/

namespace Rufus

/-! ### Characters and Python string primitives -/

/-- Python `str.lower` on one character (ASCII model). -/
def lowerChar (c : Char) : Char :=
  if 65 ≤ c.toNat ∧ c.toNat ≤ 90 then Char.ofNat (c.toNat + 32) else c

/-- A regex `\w` character (ASCII model): letters, digits, underscore. -/
def isWordChar (c : Char) : Bool :=
  c.isAlphanum || c = '_'

/-- A regex `\s` / `str.strip` whitespace character (ASCII model). -/
def isPySpace (c : Char) : Bool :=
  c = ' ' || c = '\t' || c = '\n' || c = '\x0d' || c = '\x0b' || c = '\x0c'

/-- Python `str.lower` (ASCII model). -/
def pyLower (s : String) : String :=
  ⟨s.data.map lowerChar⟩

/-- Python `str.startswith` for a single literal. -/
def pyStartsWith (s pre : String) : Bool :=
  pre.data.isPrefixOf s.data

/-- Python `sub in s` (substring containment, `in` on `str`). -/
def pyInStr (sub s : String) : Bool :=
  s.data.tails.any (fun t => sub.data.isPrefixOf t)

/-- Python `str.isnumeric` (ASCII model: nonempty, all digits). -/
def pyIsNumeric (s : String) : Bool :=
  !s.data.isEmpty && s.data.all Char.isDigit

/-- Model of `re.sub(r'[^\w\s]', ' ', ·)`: non-word, non-space characters become
one space each. -/
def replaceSpecial (l : List Char) : List Char :=
  l.map (fun c => if isWordChar c || isPySpace c then c else ' ')

/-- Model of `re.sub(r'\s+', ' ', ·)`: every maximal whitespace run becomes one
space. -/
def collapseSpace : List Char → List Char
  | [] => []
  | [c] => if isPySpace c then [' '] else [c]
  | c :: d :: rest =>
    if isPySpace c then
      if isPySpace d then collapseSpace (d :: rest)
      else ' ' :: collapseSpace (d :: rest)
    else c :: collapseSpace (d :: rest)

/-- Python `str.strip()`: drop leading and trailing whitespace. -/
def stripChars (l : List Char) : List Char :=
  ((l.dropWhile isPySpace).reverse.dropWhile isPySpace).reverse

/-- Model of `RufusClient.preprocess_text`: lowercase, replace special characters
by spaces, collapse whitespace runs, strip. -/
def preprocess_text (s : String) : String :=
  ⟨stripChars (collapseSpace (replaceSpecial (s.data.map lowerChar)))⟩

/-! ### `urllib.parse` model (CPython 3.11) -/

/-- The first index in `l` whose character satisfies `p` (the
`str.find` family, `None` for Python's `-1`). -/
def findIdxChar (p : Char → Bool) : List Char → Option Nat
  | [] => none
  | c :: cs => if p c then some 0 else (findIdxChar p cs).map (· + 1)

/-- Characters allowed in a URL scheme after the first
(`scheme_chars = ascii_letters + digits + '+-.'`). -/
def schemeChar (c : Char) : Bool :=
  c.isAlpha || c.isDigit || c = '+' || c = '-' || c = '.'

/-- The scheme-detection step of `urlsplit`: if the text up to the first
colon is a well-formed scheme, split it off (lowercased); otherwise
leave the URL alone and report no scheme. -/
def pySplitScheme (url : List Char) : List Char × List Char :=
  match findIdxChar (· = ':') url with
  | some i =>
    if 0 < i ∧ (url.headD ' ').isAlpha ∧ (url.take i).all schemeChar then
      ((url.take i).map lowerChar, url.drop (i + 1))
    else ([], url)
  | none => ([], url)

/-- Model of `_splitnetloc`: the netloc extends to the first `/`, `?` or `#`. -/
def pySplitNetloc (l : List Char) : List Char × List Char :=
  match findIdxChar (fun c => c = '/' || c = '?' || c = '#') l with
  | some i => (l.take i, l.drop i)
  | none => (l, [])

/-- Split at the first occurrence of `c`: the part before and the part
after, or the whole list and `[]` when `c` is absent. -/
def splitOnceChar (l : List Char) (c : Char) : List Char × List Char :=
  match findIdxChar (· = c) l with
  | some i => (l.take i, l.drop (i + 1))
  | none => (l, [])

/-- Result of `urlsplit`. -/
structure SplitRes where
  scheme : String
  netloc : String
  path : String
  query : String
  fragment : String
deriving Repr, DecidableEq

/-- Model of `urllib.parse.urlsplit(url, scheme=default)` with
`allow_fragments=True`, for inputs without control characters.
`none` models the `ValueError` raised on a bracket-mismatched netloc. -/
def pyUrlsplit (urlS defaultScheme : String) : Option SplitRes :=
  let (sch, url) := pySplitScheme urlS.data
  let scheme := if sch.isEmpty then defaultScheme else (⟨sch⟩ : String)
  let (netloc, url) :=
    if url.take 2 = ['/', '/'] then pySplitNetloc (url.drop 2) else ([], url)
  if ('[' ∈ netloc ∧ ']' ∉ netloc) ∨ (']' ∈ netloc ∧ '[' ∉ netloc) then none
  else
    let (url, fragment) := splitOnceChar url '#'
    let (path, query) := splitOnceChar url '?'
    some ⟨scheme, ⟨netloc⟩, ⟨path⟩, ⟨query⟩, ⟨fragment⟩⟩

/-- Result of `urlparse` (`urlsplit` plus the `params` component). -/
structure ParseRes where
  scheme : String
  netloc : String
  path : String
  params : String
  query : String
  fragment : String
deriving Repr, DecidableEq

/-- Model of `uses_params` from `urllib.parse`. -/
def usesParams : List String :=
  ["", "ftp", "hdl", "prospero", "http", "imap", "https", "shttp",
   "rtsp", "rtspu", "sip", "sips", "mms", "sftp", "tel"]

/-- Model of `uses_relative` from `urllib.parse`. -/
def usesRelative : List String :=
  ["", "ftp", "http", "gopher", "nntp", "imap", "wais", "file", "https",
   "shttp", "mms", "prospero", "rtsp", "rtspu", "sftp", "svn",
   "svn+ssh", "ws", "wss"]

/-- Model of `uses_netloc` from `urllib.parse`. -/
def usesNetloc : List String :=
  ["", "ftp", "http", "gopher", "nntp", "telnet", "imap", "wais",
   "file", "mms", "https", "shttp", "snews", "prospero", "rtsp",
   "rtspu", "rsync", "svn", "svn+ssh", "sftp", "nfs", "git", "git+ssh",
   "ws", "wss", "itms-services"]

/-- The index of the last `'/'` in `l` (only meaningful when one is
present, as at its call site in `_splitparams`). -/
def lastSlashIdx (l : List Char) : Nat :=
  match findIdxChar (· = '/') l.reverse with
  | some j => l.length - 1 - j
  | none => 0

/-- Model of `_splitparams`: split `;params` off the last path segment. -/
def pySplitparams (url : List Char) : List Char × List Char :=
  if '/' ∈ url then
    match findIdxChar (· = ';') (url.drop (lastSlashIdx url)) with
    | some j =>
      let i := lastSlashIdx url + j
      (url.take i, url.drop (i + 1))
    | none => (url, [])
  else splitOnceChar url ';'

/-- Model of `urllib.parse.urlparse(url, scheme=default)`. -/
def pyUrlparse (url defaultScheme : String) : Option ParseRes :=
  (pyUrlsplit url defaultScheme).map fun r =>
    if r.scheme ∈ usesParams ∧ ';' ∈ r.path.data then
      let (p, par) := pySplitparams r.path.data
      ⟨r.scheme, r.netloc, ⟨p⟩, ⟨par⟩, r.query, r.fragment⟩
    else ⟨r.scheme, r.netloc, r.path, "", r.query, r.fragment⟩

/-- Model of `urllib.parse.urlunsplit`. -/
def pyUrlunsplit (scheme netloc path query fragment : String) : String :=
  let url :=
    if netloc ≠ "" ∨ (path ≠ "" ∧ path.data.take 2 = ['/', '/']) then
      let p := if path ≠ "" ∧ path.data.take 1 ≠ ['/'] then "/" ++ path else path
      "//" ++ netloc ++ p
    else path
  let url := if scheme ≠ "" then scheme ++ ":" ++ url else url
  let url := if query ≠ "" then url ++ "?" ++ query else url
  if fragment ≠ "" then url ++ "#" ++ fragment else url

/-- Model of `urllib.parse.urlunparse`. -/
def pyUrlunparse (r : ParseRes) : String :=
  pyUrlunsplit r.scheme r.netloc
    (if r.params ≠ "" then r.path ++ ";" ++ r.params else r.path)
    r.query r.fragment

/-- Model of `segments[1:-1] = filter(None, segments[1:-1])` from `urljoin`:
drop empty segments, keeping the first and last. -/
def filterMiddle (segs : List (List Char)) : List (List Char) :=
  match segs with
  | [] => []
  | [a] => [a]
  | a :: rest =>
    match rest.getLast? with
    | some z => a :: (rest.dropLast.filter (fun s => !s.isEmpty) ++ [z])
    | none => [a]

/-- The `..`/`.` resolution loop of `urljoin`. -/
def resolveSegments (segments : List (List Char)) : List (List Char) :=
  segments.foldl
    (fun acc seg =>
      if seg = ['.', '.'] then acc.dropLast
      else if seg = ['.'] then acc
      else acc ++ [seg]) []

/-- Model of `urllib.parse.urljoin(base, url)`; `none` models a raised
exception. -/
def pyUrljoin (base url : String) : Option String :=
  if base = "" then some url
  else if url = "" then some base
  else do
    let b ← pyUrlparse base ""
    let u ← pyUrlparse url b.scheme
    if u.scheme ≠ b.scheme ∨ u.scheme ∉ usesRelative then
      pure url
    else if u.scheme ∈ usesNetloc ∧ u.netloc ≠ "" then
      pure (pyUrlunparse u)
    else
      let netloc := if u.scheme ∈ usesNetloc then b.netloc else u.netloc
      if u.path = "" ∧ u.params = "" then
        let query := if u.query = "" then b.query else u.query
        pure (pyUrlunparse ⟨u.scheme, netloc, b.path, b.params, query, u.fragment⟩)
      else
        let baseParts := b.path.data.splitOn '/'
        let baseParts :=
          if baseParts.getLast? ≠ some [] then baseParts.dropLast else baseParts
        let segments :=
          if u.path.data.take 1 = ['/'] then u.path.data.splitOn '/'
          else filterMiddle (baseParts ++ u.path.data.splitOn '/')
        let resolved := resolveSegments segments
        let resolved :=
          if segments.getLast? = some ['.'] ∨ segments.getLast? = some ['.', '.'] then
            resolved ++ [([] : List Char)]
          else resolved
        let path : List Char := List.intercalate ['/'] resolved
        let path := if path.isEmpty then ['/'] else path
        pure (pyUrlunparse ⟨u.scheme, netloc, ⟨path⟩, u.params, u.query, u.fragment⟩)

/-! ### External collaborators -/

/-- The external collaborators used by the relevance engine:
`tokenize` is `nltk.word_tokenize`, `stopWords` is
`stopwords.words('english')` (`self.stop_words`), and `tfidf p t` is the
cosine similarity between the TF-IDF vectors of the two-document corpus
`[p, t]` (`none` models an exception inside that computation). -/
structure Collab where
  tokenize : String → List String
  stopWords : List String
  tfidf : String → String → Option ℚ

/-- The parsed DOM of one rendered page, as consumed from BeautifulSoup:
the title element's text (if a title element exists), the stripped texts
of the elements matching each tag name (`soup.find_all(tag)`, document
order), and the `href` values of all anchors with an `href` attribute. -/
structure Dom where
  title : Option String
  elems : String → List String
  links : List String

/-- One renderable page of the site: the final URL reported by the
driver after redirects, and the parsed DOM (`none` models a parsing
exception inside `extract_data`). -/
structure Page where
  finalUrl : String
  dom : Option Dom

/-- The render collaborator as a finite table from requested URL to
page; a URL outside the table models a rendering failure (timeout or
navigation error). -/
structure World where
  pages : List (String × Page)

/-- Model of `render(url)`: one call to the Selenium driver. -/
def renderW (w : World) (u : String) : Option Page :=
  w.pages.lookup u

/-- The mutable per-session state of `RufusClient`: `visited_urls` and
`base_url`. -/
structure CrawlState where
  visited : List String
  base : Option String
deriving Repr, DecidableEq

/-- A freshly constructed client session (also the state after
`clear_cache`). -/
def freshState : CrawlState := ⟨[], none⟩

/-- Python truthiness of the optional `base_url`/`prompt` strings:
`None` and `""` are falsy. -/
def optTruthy : Option String → Bool
  | none => false
  | some s => !s.isEmpty

/-! ### URL helpers of `RufusClient` -/

/-- Model of `RufusClient.normalize_url`: empty URLs become `None`; URLs not
starting with `http://`/`https://` are resolved against `base_url` with
`urljoin` (an exception is logged and yields `None`); other URLs are
returned unchanged. -/
def normalize_url (base : Option String) (url : String) : Option String :=
  if url = "" then none
  else if pyStartsWith url "http://" || pyStartsWith url "https://" then some url
  else
    match pyUrljoin (base.getD "") url with
    | some v => some v
    | none => none

/-- Model of `RufusClient.is_valid_url`: `urlparse` succeeds and both scheme and
netloc are nonempty (`all([result.scheme, result.netloc])`). -/
def is_valid_url (url : String) : Bool :=
  match pyUrlparse url "" with
  | some r => r.scheme ≠ "" && r.netloc ≠ ""
  | none => false

/-- Model of `RufusClient.is_same_domain`: the netlocs of `url` and `base_url`
are equal as strings; any exception (including an unset `base_url`)
yields `False`. -/
def is_same_domain (base : Option String) (url : String) : Bool :=
  match base with
  | none => false
  | some b =>
    match pyUrlparse url "", pyUrlparse b "" with
    | some r, some rb => r.netloc = rb.netloc
    | _, _ => false

/-! ### Relevance engine -/

/-- Model of `RufusClient.extract_keywords`: tokenize the lowercased text, drop
stopwords, tokens of length at most 2 and purely numeric tokens. -/
def extract_keywords (C : Collab) (text : String) : List String :=
  (C.tokenize (pyLower text)).filter
    (fun wd => !C.stopWords.contains wd
      && decide (2 < wd.data.length)
      && !pyIsNumeric wd)

/-- Model of `RufusClient.is_relevant_to_prompt`: empty inputs (raw or after
preprocessing) are irrelevant; otherwise the TF-IDF tier (exceptions
swallowed), then keyword overlap, then partial keyword containment. -/
def is_relevant_to_prompt (C : Collab) (text prompt : String) (threshold : ℚ) : Bool :=
  if text = "" ∨ prompt = "" then false
  else
    let text' := preprocess_text text
    let prompt' := preprocess_text prompt
    if text' = "" ∨ prompt' = "" then false
    else
      let tfidfFired :=
        match C.tfidf prompt' text' with
        | some sim => decide (threshold ≤ sim)
        | none => false
      if tfidfFired then true
      else
        let prompt_keywords := extract_keywords C prompt'
        let text_keywords := extract_keywords C text'
        if 0 < (prompt_keywords.filter (fun wd => text_keywords.contains wd)).length then
          true
        else if prompt_keywords.any (fun p_word => text_keywords.any (fun t_word =>
            (decide (3 < p_word.data.length) && pyInStr p_word t_word)
            || (decide (3 < t_word.data.length) && pyInStr t_word p_word))) then
          true
        else false

/-- The default `threshold=0.1` of `is_relevant_to_prompt`. -/
def defaultThreshold : ℚ := 1 / 10

/-! ### Page records and result processing -/

/-- One scraped page as a result dictionary: `url`, `title`, `content`;
`relevance_score` is present (`some`) exactly on the dictionaries built
by `process_results`. -/
structure PageRecord where
  url : String
  title : String
  content : List String
  relevance_score : Option ℚ
deriving Repr, DecidableEq

/-- Model of `RufusClient.process_results`: with a falsy prompt the input passes
through unchanged; otherwise each page keeps its relevant content
blocks, gets `relevance_score = relevant count / original count`, and is
dropped when no block is relevant. -/
def process_results (C : Collab) (results : List PageRecord) (prompt : Option String) : List PageRecord :=
  match prompt with
  | none => results
  | some p =>
    if p = "" then results
    else
      results.foldl
        (fun processed r =>
          let keptContent := r.content.filter
            (fun c => is_relevant_to_prompt C c p defaultThreshold)
          let relevantCount : Nat := keptContent.length
          let totalScore : ℚ := (relevantCount : ℚ)
          if 0 < relevantCount then
            processed ++ [{ url := r.url, title := r.title, content := keptContent,
                            relevance_score := some (totalScore / (r.content.length : ℚ)) }]
          else processed)
        []

/-! ### Content extraction -/

/-- The `content_elements` tag groups of `extract_data`, concatenated in
their fixed iteration order (text, headings, lists, tables). -/
def contentTags : List String :=
  ["p", "div", "section", "article",
   "h1", "h2", "h3", "h4", "h5", "h6",
   "ul", "ol", "table"]

/-- All element texts matched by the tag groups, in extraction order. -/
def rawTexts (dm : Dom) : List String :=
  contentTags.flatMap dm.elems

/-- The collected `page_content`: element texts that are truthy and
longer than 20 characters. -/
def extractContent (dm : Dom) : List String :=
  (rawTexts dm).filter (fun t => !t.isEmpty && decide (20 < t.data.length))

/-- Model of `soup.title.string if soup.title else ''`. -/
def titleOf (dm : Dom) : String :=
  match dm.title with
  | some t => t
  | none => ""

/-! ### The crawl controller -/

/-- The `if not self.base_url: self.base_url = url` step at the top of
`scrape`. -/
def baseFix (st : CrawlState) (url : String) : CrawlState :=
  if optTruthy st.base then st else { st with base := some url }

/-- Result of one controller call: the returned list of page records,
the updated session state, and the trace of URLs passed to the render
collaborator (in call order). -/
abbrev Outcome := List PageRecord × CrawlState × List String

mutual

/-- Model of `RufusClient.scrape`: fix `base_url`, normalize and validate, check
the visited set and the depth budget, mark visited, render, extract, and
filter through `process_results` when a prompt is given. -/
def scrape (C : Collab) (w : World) (st : CrawlState) (url : String)
    (prompt : Option String) (depth : Int) : Outcome :=
  let st1 := baseFix st url
  match normalize_url st1.base url with
  | none => ([], st1, [])
  | some u =>
    if ¬ is_valid_url u then ([], st1, [])
    else if u ∈ st1.visited ∨ depth < 0 then ([], st1, [])
    else
      let st2 := { st1 with visited := u :: st1.visited }
      match renderW w u with
      | none => ([], st2, [u])
      | some pg =>
        let out := extract_data C w st2 pg.dom pg.finalUrl prompt depth
        let results :=
          if optTruthy prompt then process_results C out.1 prompt else out.1
        (results, out.2.1, u :: out.2.2)
termination_by (depth.toNat, 2, 0)
decreasing_by
  simp_wf
  simp only [Prod.lex_def]
  simp
  all_goals omega

/-- Model of `RufusClient.extract_data`: build this page's record from the parsed
DOM (an exception yields the empty list), then at positive depth follow
the page's links with budget `depth - 1`. -/
def extract_data (C : Collab) (w : World) (st : CrawlState) (dom : Option Dom)
    (currentUrl : String) (prompt : Option String) (depth : Int) : Outcome :=
  match dom with
  | none => ([], st, [])
  | some dm =>
    let rec0 : PageRecord :=
      { url := currentUrl, title := titleOf dm,
        content := extractContent dm, relevance_score := none }
    if h : 0 < depth then
      let nested := follow_links C w st dm.links prompt (depth - 1)
      (rec0 :: nested.1, nested.2.1, nested.2.2)
    else ([rec0], st, [])
termination_by (depth.toNat, 1, 0)
decreasing_by
  simp_wf
  simp only [Prod.lex_def]
  simp
  all_goals omega

/-- The link loop of `extract_data`: normalize each `href`, keep truthy
same-domain targets, and recursively scrape them, accumulating results,
state and render trace in order. -/
def follow_links (C : Collab) (w : World) (st : CrawlState) (links : List String)
    (prompt : Option String) (depth : Int) : Outcome :=
  match links with
  | [] => ([], st, [])
  | l :: ls =>
    match normalize_url st.base l with
    | none => follow_links C w st ls prompt depth
    | some nu =>
      if nu ≠ "" ∧ is_same_domain st.base nu then
        let o₁ := scrape C w st nu prompt depth
        let o₂ := follow_links C w o₁.2.1 ls prompt depth
        (o₁.1 ++ o₂.1, o₂.2.1, o₁.2.2 ++ o₂.2.2)
      else follow_links C w st ls prompt depth
termination_by (depth.toNat + 1, 0, links.length)
decreasing_by
  all_goals simp_wf
  all_goals simp only [Prod.lex_def]
  all_goals simp
  all_goals omega

end

/-! ### Branch equations for the controller -/

/-- Model of `scrape` when URL normalization fails. -/
theorem scrape_eq_normfail (C : Collab) (w : World) (st : CrawlState) (url : String)
    (prompt : Option String) (depth : Int)
    (h : normalize_url (baseFix st url).base url = none) :
    scrape C w st url prompt depth = ([], baseFix st url, []) := by
  rw [scrape.eq_def]
  simp only [h]

/-- Model of `scrape` when the normalized URL fails validation. -/
theorem scrape_eq_invalid (C : Collab) (w : World) (st : CrawlState) (url : String)
    (prompt : Option String) (depth : Int) (u : String)
    (h : normalize_url (baseFix st url).base url = some u)
    (hv : ¬ is_valid_url u = true) :
    scrape C w st url prompt depth = ([], baseFix st url, []) := by
  rw [scrape.eq_def]
  simp [h, hv]

/-- Model of `scrape` when the URL was already visited or the depth budget is
exhausted. -/
theorem scrape_eq_skip (C : Collab) (w : World) (st : CrawlState) (url : String)
    (prompt : Option String) (depth : Int) (u : String)
    (h : normalize_url (baseFix st url).base url = some u)
    (hv : is_valid_url u = true)
    (hs : u ∈ (baseFix st url).visited ∨ depth < 0) :
    scrape C w st url prompt depth = ([], baseFix st url, []) := by
  rw [scrape.eq_def]
  simp [h, hv, hs]

/-- Model of `scrape` when rendering fails: the URL was still marked visited and
passed to the driver. -/
theorem scrape_eq_renderfail (C : Collab) (w : World) (st : CrawlState) (url : String)
    (prompt : Option String) (depth : Int) (u : String)
    (h : normalize_url (baseFix st url).base url = some u)
    (hv : is_valid_url u = true)
    (hs : ¬ (u ∈ (baseFix st url).visited ∨ depth < 0))
    (hr : renderW w u = none) :
    scrape C w st url prompt depth =
      ([], { visited := u :: (baseFix st url).visited, base := (baseFix st url).base }, [u]) := by
  rw [scrape.eq_def]
  simp only [h, hr, hv]
  simp [hs]

/-- Model of `scrape` on the successful render path. -/
theorem scrape_eq_render (C : Collab) (w : World) (st : CrawlState) (url : String)
    (prompt : Option String) (depth : Int) (u : String) (pg : Page)
    (h : normalize_url (baseFix st url).base url = some u)
    (hv : is_valid_url u = true)
    (hs : ¬ (u ∈ (baseFix st url).visited ∨ depth < 0))
    (hr : renderW w u = some pg) :
    scrape C w st url prompt depth =
      (let out := extract_data C w
          { visited := u :: (baseFix st url).visited, base := (baseFix st url).base }
          pg.dom pg.finalUrl prompt depth
       (if optTruthy prompt then process_results C out.1 prompt else out.1,
        out.2.1, u :: out.2.2)) := by
  rw [scrape.eq_def]
  simp only [h, hr, hv]
  simp [hs]

/-- Model of `extract_data` when parsing failed. -/
theorem extract_eq_parsefail (C : Collab) (w : World) (st : CrawlState)
    (currentUrl : String) (prompt : Option String) (depth : Int) :
    extract_data C w st none currentUrl prompt depth = ([], st, []) := by
  rw [extract_data.eq_def]

/-- Model of `extract_data` at exhausted budget: only this page's record. -/
theorem extract_eq_stop (C : Collab) (w : World) (st : CrawlState) (dm : Dom)
    (currentUrl : String) (prompt : Option String) (depth : Int)
    (h : ¬ 0 < depth) :
    extract_data C w st (some dm) currentUrl prompt depth =
      ([{ url := currentUrl, title := titleOf dm,
          content := extractContent dm, relevance_score := none }], st, []) := by
  rw [extract_data.eq_def]
  simp [h]

/-- Model of `extract_data` at positive budget: this page's record, then the
links followed with budget `depth - 1`. -/
theorem extract_eq_follow (C : Collab) (w : World) (st : CrawlState) (dm : Dom)
    (currentUrl : String) (prompt : Option String) (depth : Int)
    (h : 0 < depth) :
    extract_data C w st (some dm) currentUrl prompt depth =
      (let nested := follow_links C w st dm.links prompt (depth - 1)
       ({ url := currentUrl, title := titleOf dm,
          content := extractContent dm, relevance_score := none } :: nested.1,
        nested.2.1, nested.2.2)) := by
  rw [extract_data.eq_def]
  simp [h]

/-- Model of `follow_links` on the empty link list. -/
theorem follow_eq_nil (C : Collab) (w : World) (st : CrawlState)
    (prompt : Option String) (depth : Int) :
    follow_links C w st [] prompt depth = ([], st, []) := by
  rw [follow_links.eq_def]

/-- Model of `follow_links` when the head link does not normalize. -/
theorem follow_eq_normfail (C : Collab) (w : World) (st : CrawlState) (l : String)
    (ls : List String) (prompt : Option String) (depth : Int)
    (h : normalize_url st.base l = none) :
    follow_links C w st (l :: ls) prompt depth =
      follow_links C w st ls prompt depth := by
  rw [follow_links.eq_def]
  simp only [h]

/-- Model of `follow_links` when the head link is skipped (empty after
normalization, or not same-domain). -/
theorem follow_eq_skip (C : Collab) (w : World) (st : CrawlState) (l : String)
    (ls : List String) (prompt : Option String) (depth : Int) (nu : String)
    (h : normalize_url st.base l = some nu)
    (hs : ¬ (nu ≠ "" ∧ is_same_domain st.base nu = true)) :
    follow_links C w st (l :: ls) prompt depth =
      follow_links C w st ls prompt depth := by
  rw [follow_links.eq_def]
  simp only [h, if_neg hs]

/-- Model of `follow_links` when the head link is followed. -/
theorem follow_eq_hit (C : Collab) (w : World) (st : CrawlState) (l : String)
    (ls : List String) (prompt : Option String) (depth : Int) (nu : String)
    (h : normalize_url st.base l = some nu)
    (hs : nu ≠ "" ∧ is_same_domain st.base nu = true) :
    follow_links C w st (l :: ls) prompt depth =
      (let o₁ := scrape C w st nu prompt depth
       let o₂ := follow_links C w o₁.2.1 ls prompt depth
       (o₁.1 ++ o₂.1, o₂.2.1, o₁.2.2 ++ o₂.2.2)) := by
  rw [follow_links.eq_def]
  simp only [h, if_pos hs]

/-! ### Visited-set and render-trace invariants -/

/-- Relation between the entry state, the exit state and the render
trace of one controller call: the visited set grows monotonically, the
trace is duplicate-free, every traced URL is in the exit visited set but
was not yet visited on entry, and a truthy `base_url` is never
changed. -/
def StInv (st st' : CrawlState) (tr : List String) : Prop :=
  (∀ u ∈ st.visited, u ∈ st'.visited) ∧
  tr.Nodup ∧
  (∀ u ∈ tr, u ∈ st'.visited ∧ u ∉ st.visited) ∧
  (optTruthy st.base = true → st'.base = st.base)

theorem stInv_refl (st : CrawlState) : StInv st st [] :=
  ⟨fun _ hu => hu, List.nodup_nil, fun _ hu => absurd hu (List.not_mem_nil _), fun _ => rfl⟩

theorem stInv_baseFix_nil (st : CrawlState) (url : String) :
    StInv st (baseFix st url) [] := by
  refine ⟨fun u hu => ?_, List.nodup_nil, fun _ hu => absurd hu (List.not_mem_nil _), fun ht => ?_⟩
  · simp only [baseFix]
    split <;> exact hu
  · simp [baseFix, ht]

theorem stInv_comp {st st1 st2 : CrawlState} {t1 t2 : List String}
    (h1 : StInv st st1 t1) (h2 : StInv st1 st2 t2) : StInv st st2 (t1 ++ t2) := by
  obtain ⟨m1, n1, f1, b1⟩ := h1
  obtain ⟨m2, n2, f2, b2⟩ := h2
  refine ⟨fun u hu => m2 u (m1 u hu), ?_, ?_, fun ht => ?_⟩
  · rw [List.nodup_append]
    refine ⟨n1, n2, fun u hu1 hu2 => ?_⟩
    exact (f2 u hu2).2 ((f1 u hu1).1)
  · intro u hu
    rcases List.mem_append.mp hu with h | h
    · exact ⟨m2 u (f1 u h).1, (f1 u h).2⟩
    · exact ⟨(f2 u h).1, fun hin => (f2 u h).2 (m1 u hin)⟩
  · rw [b2 (by rw [b1 ht]; exact ht), b1 ht]

theorem stInv_under_baseFix {st st' : CrawlState} {tr : List String} {url : String}
    (h : StInv (baseFix st url) st' tr) : StInv st st' tr :=
  stInv_comp (stInv_baseFix_nil st url) h

theorem stInv_push {st1 st' : CrawlState} {tr : List String} {u : String}
    (hu : u ∉ st1.visited)
    (h : StInv { st1 with visited := u :: st1.visited } st' tr) :
    StInv st1 st' (u :: tr) := by
  obtain ⟨m, n, f, b⟩ := h
  refine ⟨fun v hv => m v (List.mem_cons_of_mem _ hv), ?_, ?_, b⟩
  · refine List.nodup_cons.mpr ⟨fun hmem => ?_, n⟩
    exact (f u hmem).2 (List.mem_cons_self _ _)
  · intro v hv
    rcases List.mem_cons.mp hv with rfl | hv
    · exact ⟨m v (List.mem_cons_self _ _), hu⟩
    · exact ⟨(f v hv).1, fun hin => (f v hv).2 (List.mem_cons_of_mem _ hin)⟩

/-- The visited-set invariant holds for every call of the three mutually
recursive controller functions. -/
theorem stInv_all (C : Collab) (w : World) :
    (∀ (st : CrawlState) (url : String) (prompt : Option String) (depth : Int),
      StInv st (scrape C w st url prompt depth).2.1 (scrape C w st url prompt depth).2.2) ∧
    (∀ (st : CrawlState) (dom : Option Dom) (currentUrl : String) (prompt : Option String) (depth : Int),
      StInv st (extract_data C w st dom currentUrl prompt depth).2.1
        (extract_data C w st dom currentUrl prompt depth).2.2) ∧
    (∀ (st : CrawlState) (links : List String) (prompt : Option String) (depth : Int),
      StInv st (follow_links C w st links prompt depth).2.1
        (follow_links C w st links prompt depth).2.2) := by
  refine scrape.mutual_induct C w _ _ _ ?_ ?_ ?_ ?_ ?_ ?_ ?_ ?_ ?_ ?_ ?_ ?_
  · intro st url prompt depth st1 h
    rw [scrape_eq_normfail C w st url prompt depth h]
    exact stInv_baseFix_nil st url
  · intro st url prompt depth st1 u h hv
    rw [scrape_eq_invalid C w st url prompt depth u h hv]
    exact stInv_baseFix_nil st url
  · intro st url prompt depth st1 u h hv hs
    rw [scrape_eq_skip C w st url prompt depth u h (not_not.mp hv) hs]
    exact stInv_baseFix_nil st url
  · intro st url prompt depth st1 u h hv hs hr
    rw [scrape_eq_renderfail C w st url prompt depth u h (not_not.mp hv) hs hr]
    refine stInv_under_baseFix (stInv_push ?_ (stInv_refl _))
    intro hmem
    exact hs (Or.inl hmem)
  · intro st url prompt depth st1 u h hv hs st2 pg hr ih
    rw [scrape_eq_render C w st url prompt depth u pg h (not_not.mp hv) hs hr]
    exact stInv_under_baseFix (stInv_push (fun hmem => hs (Or.inl hmem)) ih)
  · intro st currentUrl prompt depth
    rw [extract_eq_parsefail]
    exact stInv_refl st
  · intro st currentUrl prompt depth dm hd ih
    rw [extract_eq_follow C w st dm currentUrl prompt depth hd]
    exact ih
  · intro st currentUrl prompt depth dm hd
    rw [extract_eq_stop C w st dm currentUrl prompt depth hd]
    exact stInv_refl st
  · intro st prompt depth
    rw [follow_eq_nil]
    exact stInv_refl st
  · intro st prompt depth l ls h ih
    rw [follow_eq_normfail C w st l ls prompt depth h]
    exact ih
  · intro st prompt depth l ls nu h hs o₁ ih1 ih3
    rw [follow_eq_hit C w st l ls prompt depth nu h hs]
    exact stInv_comp ih1 ih3
  · intro st prompt depth l ls nu h hs ih
    rw [follow_eq_skip C w st l ls prompt depth nu h hs]
    exact ih

/-! ### Render-count bounds -/

/-- The geometric sum `1 + B + B² + ⋯ + Bⁿ`: the call-tree bound for one `scrape` call
with branching `B` and depth budget `n`. -/
def geomSum (B : Nat) : Nat → Nat
  | 0 => 1
  | n + 1 => 1 + B * geomSum B n

theorem one_le_geomSum (B n : Nat) : 1 ≤ geomSum B n := by
  cases n <;> simp [geomSum]

/-- Every page of the site offers at most `B` outbound links. -/
def linksBounded (w : World) (B : Nat) : Prop :=
  ∀ pr ∈ w.pages, ∀ dm, pr.2.dom = some dm → dm.links.length ≤ B

/-- Decidable form of `linksBounded`, for concrete worlds. -/
def linksBoundedB (w : World) (B : Nat) : Bool :=
  w.pages.all fun pr =>
    match pr.2.dom with
    | none => true
    | some dm => dm.links.length ≤ B

theorem linksBounded_of_boolean {w : World} {B : Nat}
    (h : linksBoundedB w B = true) : linksBounded w B := by
  intro pr hpr dm hdm
  have := (List.all_eq_true.mp h) pr hpr
  rw [hdm] at this
  simpa using this

theorem mem_of_lookup {α β : Type} [BEq α] [LawfulBEq α] {l : List (α × β)} {k : α} {v : β}
    (h : l.lookup k = some v) : (k, v) ∈ l := by
  induction l with
  | nil => simp [List.lookup] at h
  | cons p rest ih =>
    obtain ⟨k', v'⟩ := p
    rw [List.lookup] at h
    rcases hk : k == k' with hfalse | htrue
    · rw [hk] at h
      exact List.mem_cons_of_mem _ (ih h)
    · rw [hk] at h
      cases h
      have hkk : k = k' := eq_of_beq hk
      subst hkk
      exact List.mem_cons_self _ _

/-- The number of render calls of each controller function is bounded by
the geometric call-tree sum. -/
theorem renderCount_all (C : Collab) (w : World) (B : Nat) (hB : linksBounded w B) :
    (∀ (st : CrawlState) (url : String) (prompt : Option String) (depth : Int),
      (scrape C w st url prompt depth).2.2.length ≤ geomSum B depth.toNat) ∧
    (∀ (st : CrawlState) (dom : Option Dom) (currentUrl : String) (prompt : Option String) (depth : Int),
      (∀ dm, dom = some dm → dm.links.length ≤ B) →
        (extract_data C w st dom currentUrl prompt depth).2.2.length ≤ B * geomSum B (depth - 1).toNat ∧
        (depth ≤ 0 → (extract_data C w st dom currentUrl prompt depth).2.2 = [])) ∧
    (∀ (st : CrawlState) (links : List String) (prompt : Option String) (depth : Int),
      (follow_links C w st links prompt depth).2.2.length ≤ links.length * geomSum B depth.toNat) := by
  refine scrape.mutual_induct C w _ _ _ ?_ ?_ ?_ ?_ ?_ ?_ ?_ ?_ ?_ ?_ ?_ ?_
  · intro st url prompt depth st1 h
    rw [scrape_eq_normfail C w st url prompt depth h]
    exact Nat.zero_le _
  · intro st url prompt depth st1 u h hv
    rw [scrape_eq_invalid C w st url prompt depth u h hv]
    exact Nat.zero_le _
  · intro st url prompt depth st1 u h hv hs
    rw [scrape_eq_skip C w st url prompt depth u h (not_not.mp hv) hs]
    exact Nat.zero_le _
  · intro st url prompt depth st1 u h hv hs hr
    rw [scrape_eq_renderfail C w st url prompt depth u h (not_not.mp hv) hs hr]
    simpa using one_le_geomSum B depth.toNat
  · intro st url prompt depth st1 u h hv hs st2 pg hr ih
    rw [scrape_eq_render C w st url prompt depth u pg h (not_not.mp hv) hs hr]
    have hdm : ∀ dm, pg.dom = some dm → dm.links.length ≤ B := by
      intro dm hd
      exact hB (u, pg) (mem_of_lookup hr) dm hd
    have ih' := ih hdm
    have ihA : (extract_data C w
        { visited := u :: (baseFix st url).visited, base := (baseFix st url).base }
        pg.dom pg.finalUrl prompt depth).2.2.length ≤ B * geomSum B (depth - 1).toNat := ih'.1
    have ihB : depth ≤ 0 → (extract_data C w
        { visited := u :: (baseFix st url).visited, base := (baseFix st url).base }
        pg.dom pg.finalUrl prompt depth).2.2 = [] := ih'.2
    rcases Int.lt_or_le 0 depth with hpos | hnp
    · have h1 : depth.toNat = (depth - 1).toNat + 1 := by omega
      simp only [List.length_cons, h1, geomSum]
      omega
    · have h2 := ihB hnp
      simp only [List.length_cons, h2, List.length_nil]
      exact one_le_geomSum B depth.toNat
  · intro st currentUrl prompt depth
    rw [extract_eq_parsefail]
    exact fun _ => ⟨Nat.zero_le _, fun _ => rfl⟩
  · intro st currentUrl prompt depth dm hd ih
    rw [extract_eq_follow C w st dm currentUrl prompt depth hd]
    intro hdm
    constructor
    · have hlen := hdm dm rfl
      calc (follow_links C w st dm.links prompt (depth - 1)).2.2.length
          ≤ dm.links.length * geomSum B (depth - 1).toNat := ih
        _ ≤ B * geomSum B (depth - 1).toNat := Nat.mul_le_mul_right _ hlen
    · intro hnp
      omega
  · intro st currentUrl prompt depth dm hd
    rw [extract_eq_stop C w st dm currentUrl prompt depth hd]
    exact fun _ => ⟨Nat.zero_le _, fun _ => rfl⟩
  · intro st prompt depth
    rw [follow_eq_nil]
    simp
  · intro st prompt depth l ls h ih
    rw [follow_eq_normfail C w st l ls prompt depth h]
    calc (follow_links C w st ls prompt depth).2.2.length
        ≤ ls.length * geomSum B depth.toNat := ih
      _ ≤ (l :: ls).length * geomSum B depth.toNat := by
          simp only [List.length_cons]
          exact Nat.mul_le_mul_right _ (Nat.le_succ _)
  · intro st prompt depth l ls nu h hs o₁ ih1 ih3
    rw [follow_eq_hit C w st l ls prompt depth nu h hs]
    simp only [List.length_append, List.length_cons]
    calc (scrape C w st nu prompt depth).2.2.length
          + (follow_links C w (scrape C w st nu prompt depth).2.1 ls prompt depth).2.2.length
        ≤ geomSum B depth.toNat + ls.length * geomSum B depth.toNat := by
          exact Nat.add_le_add ih1 ih3
      _ = (ls.length + 1) * geomSum B depth.toNat := by ring
  · intro st prompt depth l ls nu h hs ih
    rw [follow_eq_skip C w st l ls prompt depth nu h hs]
    calc (follow_links C w st ls prompt depth).2.2.length
        ≤ ls.length * geomSum B depth.toNat := ih
      _ ≤ (l :: ls).length * geomSum B depth.toNat := by
          simp only [List.length_cons]
          exact Nat.mul_le_mul_right _ (Nat.le_succ _)

/-! ### Reachable same-origin URLs -/

/-- The URLs a session seeded at `seed` can ever dispatch for rendering:
the normalized, validated seed, and — inductively — every link of a
rendered reachable page that normalizes to a truthy same-domain URL
whose re-normalization passes validation. -/
inductive Reachable (w : World) (seed : String) : String → Prop
  | seed : ∀ u, normalize_url (some seed) seed = some u → is_valid_url u = true →
      Reachable w seed u
  | step : ∀ u pg dm l v v', Reachable w seed u → renderW w u = some pg →
      pg.dom = some dm → l ∈ dm.links →
      normalize_url (some seed) l = some v → v ≠ "" →
      is_same_domain (some seed) v = true →
      normalize_url (some seed) v = some v' → is_valid_url v' = true →
      Reachable w seed v'

/-- The per-link obligation used while chasing the links of one page. -/
def LinkChain (w : World) (seed : String) (l : String) : Prop :=
  ∀ v, normalize_url (some seed) l = some v → v ≠ "" →
    is_same_domain (some seed) v = true →
    ∀ v', normalize_url (some seed) v = some v' → is_valid_url v' = true →
      Reachable w seed v'

/-- Every URL in the render trace of each controller function is
reachable from the seed. -/
theorem rendered_reachable (C : Collab) (w : World) (seed : String) (hseed : seed ≠ "") :
    (∀ (st : CrawlState) (url : String) (prompt : Option String) (depth : Int),
      (st.base = some seed ∨ (optTruthy st.base = false ∧ url = seed)) →
      (∀ u', normalize_url (some seed) url = some u' → is_valid_url u' = true →
        Reachable w seed u') →
      ∀ u ∈ (scrape C w st url prompt depth).2.2, Reachable w seed u) ∧
    (∀ (st : CrawlState) (dom : Option Dom) (currentUrl : String) (prompt : Option String) (depth : Int),
      st.base = some seed →
      (∀ dm, dom = some dm → ∀ l ∈ dm.links, LinkChain w seed l) →
      ∀ u ∈ (extract_data C w st dom currentUrl prompt depth).2.2, Reachable w seed u) ∧
    (∀ (st : CrawlState) (links : List String) (prompt : Option String) (depth : Int),
      st.base = some seed →
      (∀ l ∈ links, LinkChain w seed l) →
      ∀ u ∈ (follow_links C w st links prompt depth).2.2, Reachable w seed u) := by
  have hTruthy : optTruthy (some seed) = true := by
    simp only [optTruthy, Bool.not_eq_true']
    exact Bool.eq_false_iff.mpr (fun he => hseed ((String.isEmpty_iff seed).mp he))
  have hBase : ∀ (st : CrawlState) (url : String),
      (st.base = some seed ∨ (optTruthy st.base = false ∧ url = seed)) →
      (baseFix st url).base = some seed := by
    intro st url h
    rcases h with h | ⟨hf, rfl⟩
    · simp [baseFix, h, hTruthy]
    · simp [baseFix, hf]
  refine scrape.mutual_induct C w _ _ _ ?_ ?_ ?_ ?_ ?_ ?_ ?_ ?_ ?_ ?_ ?_ ?_
  · intro st url prompt depth st1 h hb hc
    rw [scrape_eq_normfail C w st url prompt depth h]
    intro u hu
    exact absurd hu (List.not_mem_nil u)
  · intro st url prompt depth st1 u h hv hb hc
    rw [scrape_eq_invalid C w st url prompt depth u h hv]
    intro v hv'
    exact absurd hv' (List.not_mem_nil v)
  · intro st url prompt depth st1 u h hv hs hb hc
    rw [scrape_eq_skip C w st url prompt depth u h (not_not.mp hv) hs]
    intro v hv'
    exact absurd hv' (List.not_mem_nil v)
  · intro st url prompt depth st1 u h hv hs hr hb hc
    rw [scrape_eq_renderfail C w st url prompt depth u h (not_not.mp hv) hs hr]
    intro v hv'
    rcases List.mem_singleton.mp hv' with rfl
    have h' : normalize_url (some seed) url = some v := by
      rw [← hBase st url hb]; exact h
    exact hc v h' (not_not.mp hv)
  · intro st url prompt depth st1 u h hv hs st2 pg hr ih hb hc
    rw [scrape_eq_render C w st url prompt depth u pg h (not_not.mp hv) hs hr]
    intro v hv'
    have h' : normalize_url (some seed) url = some u := by
      rw [← hBase st url hb]; exact h
    have hu : Reachable w seed u := hc u h' (not_not.mp hv)
    rcases List.mem_cons.mp hv' with rfl | hv'
    · exact hu
    · refine ih ?_ ?_ v hv'
      · show (baseFix st url).base = some seed
        exact hBase st url hb
      · intro dm hdm l hl v₁ hn1 hne1 hsd1 v₂ hn2 hval2
        exact Reachable.step u pg dm l v₁ v₂ hu hr hdm hl hn1 hne1 hsd1 hn2 hval2
  · intro st currentUrl prompt depth hb hc
    rw [extract_eq_parsefail]
    intro u hu
    exact absurd hu (List.not_mem_nil u)
  · intro st currentUrl prompt depth dm hd ih hb hc
    rw [extract_eq_follow C w st dm currentUrl prompt depth hd]
    exact ih hb (hc dm rfl)
  · intro st currentUrl prompt depth dm hd hb hc
    rw [extract_eq_stop C w st dm currentUrl prompt depth hd]
    intro u hu
    exact absurd hu (List.not_mem_nil u)
  · intro st prompt depth hb hc
    rw [follow_eq_nil]
    intro u hu
    exact absurd hu (List.not_mem_nil u)
  · intro st prompt depth l ls h ih hb hc
    rw [follow_eq_normfail C w st l ls prompt depth h]
    exact ih hb (fun l' hl' => hc l' (List.mem_cons_of_mem _ hl'))
  · intro st prompt depth l ls nu h hs o₁ ih1 ih3 hb hc
    rw [follow_eq_hit C w st l ls prompt depth nu h hs]
    intro v hv
    have hv' : v ∈ (scrape C w st nu prompt depth).2.2 ++
        (follow_links C w (scrape C w st nu prompt depth).2.1 ls prompt depth).2.2 := hv
    have hlnorm : normalize_url (some seed) l = some nu := by rw [← hb]; exact h
    have hsd : is_same_domain (some seed) nu = true := by rw [← hb]; exact hs.2
    have hchain : ∀ u', normalize_url (some seed) nu = some u' → is_valid_url u' = true →
        Reachable w seed u' := by
      intro u' hn' hval'
      exact hc l (List.mem_cons_self _ _) nu hlnorm hs.1 hsd u' hn' hval'
    have hb1 : (scrape C w st nu prompt depth).2.1.base = some seed := by
      have hpres := ((stInv_all C w).1 st nu prompt depth).2.2.2
      rw [hpres (by rw [hb]; exact hTruthy), hb]
    rcases List.mem_append.mp hv' with hv'' | hv''
    · exact ih1 (Or.inl hb) hchain v hv''
    · exact ih3 hb1 (fun l' hl' => hc l' (List.mem_cons_of_mem _ hl')) v hv''
  · intro st prompt depth l ls nu h hs ih hb hc
    rw [follow_eq_skip C w st l ls prompt depth nu h hs]
    exact ih hb (fun l' hl' => hc l' (List.mem_cons_of_mem _ hl'))

/-- A computable superset of the reachable URLs: the normalized seed and
every doubly-normalized link of any page of the site. -/
def urlUniverse (w : World) (seed : String) : List String :=
  (match normalize_url (some seed) seed with
   | some u => [u]
   | none => []) ++
  (w.pages.flatMap fun pr =>
    match pr.2.dom with
    | some dm => dm.links.filterMap (fun l =>
        (normalize_url (some seed) l).bind (fun v => normalize_url (some seed) v))
    | none => [])

theorem reachable_mem_universe {w : World} {seed u : String}
    (h : Reachable w seed u) : u ∈ urlUniverse w seed := by
  induction h with
  | seed u hn hv =>
    apply List.mem_append_left
    rw [hn]
    exact List.mem_singleton.mpr rfl
  | step u pg dm l v v' hreach hr hdm hl hn hne hsd hn' hval ih =>
    apply List.mem_append_right
    rw [List.mem_flatMap]
    refine ⟨(u, pg), mem_of_lookup hr, ?_⟩
    rw [hdm]
    rw [List.mem_filterMap]
    refine ⟨l, hl, ?_⟩
    rw [hn]
    simpa using hn'

theorem reachable_finite (w : World) (seed : String) :
    (setOf (Reachable w seed)).Finite :=
  Set.Finite.subset (urlUniverse w seed).finite_toSet
    (fun _ hu => reachable_mem_universe hu)

theorem length_le_ncard {l : List String} {S : Set String} (hn : l.Nodup)
    (hsub : ∀ u ∈ l, u ∈ S) (hfin : S.Finite) : l.length ≤ S.ncard := by
  classical
  have h1 : l.toFinset.card = l.length := List.toFinset_card_of_nodup hn
  have h2 : (↑l.toFinset : Set String) ⊆ S := by
    intro u hu
    rw [List.coe_toFinset] at hu
    exact hsub u hu
  calc l.length = (↑l.toFinset : Set String).ncard := by rw [Set.ncard_coe_Finset, h1]
    _ ≤ S.ncard := Set.ncard_le_ncard h2 hfin

/-! ### Result-processing lemmas -/

theorem optTruthy_some {s : String} (hs : s ≠ "") : optTruthy (some s) = true := by
  simp only [optTruthy, Bool.not_eq_true']
  exact Bool.eq_false_iff.mpr (fun he => hs ((String.isEmpty_iff s).mp he))

/-- The action of the `process_results` loop on one page record. -/
def processedPage (C : Collab) (p : String) (r : PageRecord) : Option PageRecord :=
  let kept := r.content.filter (fun c => is_relevant_to_prompt C c p defaultThreshold)
  if 0 < kept.length then
    some { url := r.url, title := r.title, content := kept,
           relevance_score := some ((kept.length : ℚ) / (r.content.length : ℚ)) }
  else none

theorem process_results_none (C : Collab) (rs : List PageRecord) :
    process_results C rs none = rs := rfl

theorem process_results_emptyPrompt (C : Collab) (rs : List PageRecord) :
    process_results C rs (some "") = rs := by
  simp [process_results]

theorem process_results_eq_filterMap (C : Collab) (rs : List PageRecord) (p : String)
    (hp : p ≠ "") :
    process_results C rs (some p) = rs.filterMap (processedPage C p) := by
  simp only [process_results, if_neg hp]
  suffices h : ∀ (l : List PageRecord) (acc : List PageRecord),
      l.foldl
        (fun processed r =>
          let keptContent := r.content.filter (fun c => is_relevant_to_prompt C c p defaultThreshold)
          let relevantCount : Nat := keptContent.length
          let totalScore : ℚ := (relevantCount : ℚ)
          if 0 < relevantCount then
            processed ++ [{ url := r.url, title := r.title, content := keptContent,
                            relevance_score := some (totalScore / (r.content.length : ℚ)) }]
          else processed) acc
      = acc ++ l.filterMap (processedPage C p) by
    simpa using h rs []
  intro l
  induction l with
  | nil => intro acc; simp
  | cons r rest ih =>
    intro acc
    rw [List.foldl_cons, List.filterMap_cons]
    by_cases h : 0 < (r.content.filter (fun c => is_relevant_to_prompt C c p defaultThreshold)).length
    · simp only [if_pos h, ih, processedPage]
      simp [List.append_assoc]
    · simp only [if_neg h, ih, processedPage]

/-- A page record whose content is nonempty and entirely judged relevant
to `p`; the shape of every record `process_results` outputs. -/
def GoodRec (C : Collab) (p : String) (r : PageRecord) : Prop :=
  r.content ≠ [] ∧ ∀ c ∈ r.content, is_relevant_to_prompt C c p defaultThreshold = true

theorem process_output_good (C : Collab) (rs : List PageRecord) (p : String) (hp : p ≠ "") :
    ∀ r ∈ process_results C rs (some p), GoodRec C p r := by
  rw [process_results_eq_filterMap C rs p hp]
  intro r hr
  rw [List.mem_filterMap] at hr
  obtain ⟨r₀, _, hpp⟩ := hr
  unfold processedPage at hpp
  simp only [] at hpp
  split at hpp
  · cases hpp
    constructor
    · exact List.length_pos.mp (by assumption)
    · intro c hc
      exact (List.mem_filter.mp hc).2
  · cases hpp

/-- Scores emitted by `process_results` always lie in `[0, 1]`. -/
theorem process_output_score (C : Collab) (rs : List PageRecord) (p : String) (hp : p ≠ "") :
    ∀ r ∈ process_results C rs (some p),
      ∃ q : ℚ, r.relevance_score = some q ∧ 0 ≤ q ∧ q ≤ 1 := by
  rw [process_results_eq_filterMap C rs p hp]
  intro r hr
  rw [List.mem_filterMap] at hr
  obtain ⟨r₀, _, hpp⟩ := hr
  unfold processedPage at hpp
  simp only [] at hpp
  split at hpp
  · cases hpp
    next hpos =>
    refine ⟨_, rfl, by positivity, ?_⟩
    have hle := List.length_filter_le
      (fun c => is_relevant_to_prompt C c p defaultThreshold) r₀.content
    have hpos' : (0 : ℚ) < (r₀.content.length : ℚ) := by
      have h0 : 0 < r₀.content.length := lt_of_lt_of_le hpos hle
      exact_mod_cast h0
    rw [div_le_one hpos']
    exact_mod_cast hle
  · cases hpp

/-- Re-processing a record that is already entirely relevant keeps its
content and assigns relevance score `1`. -/
theorem processedPage_good (C : Collab) (p : String) (r : PageRecord)
    (hg : GoodRec C p r) :
    processedPage C p r =
      some { url := r.url, title := r.title, content := r.content,
             relevance_score := some 1 } := by
  unfold processedPage
  have hfix : r.content.filter (fun c => is_relevant_to_prompt C c p defaultThreshold)
      = r.content := List.filter_eq_self.mpr hg.2
  simp only [hfix]
  have hpos : 0 < r.content.length := List.length_pos.mpr hg.1
  rw [if_pos hpos]
  have hne : (r.content.length : ℚ) ≠ 0 := by
    exact_mod_cast Nat.pos_iff_ne_zero.mp hpos
  rw [div_self hne]

/-- Re-processing a list of entirely relevant records just rewrites
every relevance score to `1`. -/
theorem process_good_list (C : Collab) (p : String) (hp : p ≠ "")
    (rs : List PageRecord) (h : ∀ r ∈ rs, GoodRec C p r) :
    process_results C rs (some p) =
      rs.map (fun r => { url := r.url, title := r.title, content := r.content,
                         relevance_score := some 1 }) := by
  rw [process_results_eq_filterMap C rs p hp]
  induction rs with
  | nil => rfl
  | cons r rest ih =>
    rw [List.filterMap_cons, processedPage_good C p r (h r (List.mem_cons_self _ _))]
    simp only [List.map_cons]
    rw [ih (fun r' hr' => h r' (List.mem_cons_of_mem _ hr'))]

/-- Processing a list none of whose blocks is relevant drops every
page. -/
theorem process_irrelevant_list (C : Collab) (p : String) (hp : p ≠ "")
    (rs : List PageRecord)
    (h : ∀ r ∈ rs, ∀ c ∈ r.content, is_relevant_to_prompt C c p defaultThreshold = false) :
    process_results C rs (some p) = [] := by
  rw [process_results_eq_filterMap C rs p hp]
  induction rs with
  | nil => rfl
  | cons r rest ih =>
    rw [List.filterMap_cons]
    have hnone : processedPage C p r = none := by
      unfold processedPage
      have hnil : r.content.filter (fun c => is_relevant_to_prompt C c p defaultThreshold) = [] := by
        rw [List.filter_eq_nil_iff]
        intro c hc
        simp [h r (List.mem_cons_self _ _) c hc]
      simp [hnil]
    rw [hnone]
    exact ih (fun r' hr' => h r' (List.mem_cons_of_mem _ hr'))

/-- Every record returned by `scrape` under a truthy prompt is entirely
relevant with nonempty content. -/
theorem scrape_output_good (C : Collab) (w : World) (st : CrawlState) (url : String)
    (p : String) (d : Int) (hp : p ≠ "") :
    ∀ r ∈ (scrape C w st url (some p) d).1, GoodRec C p r := by
  rcases hn : normalize_url (baseFix st url).base url with _ | u
  · rw [scrape_eq_normfail C w st url (some p) d hn]
    simp
  · by_cases hv : is_valid_url u = true
    · by_cases hs : u ∈ (baseFix st url).visited ∨ d < 0
      · rw [scrape_eq_skip C w st url (some p) d u hn hv hs]
        simp
      · rcases hr : renderW w u with _ | pg
        · rw [scrape_eq_renderfail C w st url (some p) d u hn hv hs hr]
          simp
        · rw [scrape_eq_render C w st url (some p) d u pg hn hv hs hr]
          simp only [optTruthy_some hp, if_true]
          exact process_output_good C _ p hp
    · rw [scrape_eq_invalid C w st url (some p) d u hn hv]
      simp

/-- Every record returned by the link loop under a truthy prompt is
entirely relevant with nonempty content. -/
theorem follow_output_good (C : Collab) (w : World) (p : String) (hp : p ≠ "") (d : Int) :
    ∀ (links : List String) (st : CrawlState),
      ∀ r ∈ (follow_links C w st links (some p) d).1, GoodRec C p r := by
  intro links
  induction links with
  | nil =>
    intro st
    rw [follow_eq_nil]
    simp
  | cons l ls ih =>
    intro st
    rcases hn : normalize_url st.base l with _ | nu
    · rw [follow_eq_normfail C w st l ls (some p) d hn]
      exact ih st
    · by_cases hs : nu ≠ "" ∧ is_same_domain st.base nu = true
      · rw [follow_eq_hit C w st l ls (some p) d nu hn hs]
        intro r hr
        have hr' : r ∈ (scrape C w st nu (some p) d).1 ++
            (follow_links C w (scrape C w st nu (some p) d).2.1 ls (some p) d).1 := hr
        rcases List.mem_append.mp hr' with h | h
        · exact scrape_output_good C w st nu p d hp r h
        · exact ih _ r h
      · rw [follow_eq_skip C w st l ls (some p) d nu hn hs]
        exact ih st

/-! ### Worlds where the prompt matches nothing -/

/-- No extracted content block of any page of `w` is relevant to `p`. -/
def worldIrrelevant (C : Collab) (w : World) (p : String) : Prop :=
  ∀ pr ∈ w.pages, ∀ dm, pr.2.dom = some dm →
    ∀ b ∈ extractContent dm, is_relevant_to_prompt C b p defaultThreshold = false

/-- Decidable form of `worldIrrelevant`, for concrete worlds. -/
def worldIrrelevantB (C : Collab) (w : World) (p : String) : Bool :=
  w.pages.all fun pr =>
    match pr.2.dom with
    | none => true
    | some dm =>
      (extractContent dm).all fun b => !(is_relevant_to_prompt C b p defaultThreshold)

theorem worldIrrelevant_of_boolean {C : Collab} {w : World} {p : String}
    (h : worldIrrelevantB C w p = true) : worldIrrelevant C w p := by
  intro pr hpr dm hdm b hb
  have hall := (List.all_eq_true.mp h) pr hpr
  rw [hdm] at hall
  have hb' := (List.all_eq_true.mp hall) b hb
  simpa using hb'

/-- In a world where no block matches the prompt, every branch of the
crawl returns the empty result list. -/
theorem irrelevant_world_empty (C : Collab) (w : World) (p : String) (hp : p ≠ "")
    (hirr : worldIrrelevant C w p) :
    (∀ (st : CrawlState) (url : String) (prompt : Option String) (depth : Int),
      prompt = some p → (scrape C w st url prompt depth).1 = []) ∧
    (∀ (st : CrawlState) (dom : Option Dom) (currentUrl : String) (prompt : Option String) (depth : Int),
      prompt = some p →
      (∀ dm, dom = some dm →
        ∀ b ∈ extractContent dm, is_relevant_to_prompt C b p defaultThreshold = false) →
      ∀ r ∈ (extract_data C w st dom currentUrl prompt depth).1,
        ∀ c ∈ r.content, is_relevant_to_prompt C c p defaultThreshold = false) ∧
    (∀ (st : CrawlState) (links : List String) (prompt : Option String) (depth : Int),
      prompt = some p → (follow_links C w st links prompt depth).1 = []) := by
  refine scrape.mutual_induct C w _ _ _ ?_ ?_ ?_ ?_ ?_ ?_ ?_ ?_ ?_ ?_ ?_ ?_
  · intro st url prompt depth st1 h hpr
    rw [scrape_eq_normfail C w st url prompt depth h]
  · intro st url prompt depth st1 u h hv hpr
    rw [scrape_eq_invalid C w st url prompt depth u h hv]
  · intro st url prompt depth st1 u h hv hs hpr
    rw [scrape_eq_skip C w st url prompt depth u h (not_not.mp hv) hs]
  · intro st url prompt depth st1 u h hv hs hr hpr
    rw [scrape_eq_renderfail C w st url prompt depth u h (not_not.mp hv) hs hr]
  · intro st url prompt depth st1 u h hv hs st2 pg hr ih hpr
    subst hpr
    rw [scrape_eq_render C w st url (some p) depth u pg h (not_not.mp hv) hs hr]
    simp only [optTruthy_some hp, if_true]
    apply process_irrelevant_list C p hp
    have hdm : ∀ dm, pg.dom = some dm →
        ∀ b ∈ extractContent dm, is_relevant_to_prompt C b p defaultThreshold = false := by
      intro dm hd
      exact hirr (u, pg) (mem_of_lookup hr) dm hd
    exact fun r hrr => ih rfl hdm r hrr
  · intro st currentUrl prompt depth hpr hdm
    rw [extract_eq_parsefail]
    intro r hr
    exact absurd hr (List.not_mem_nil r)
  · intro st currentUrl prompt depth dm hd ih hpr hdm
    rw [extract_eq_follow C w st dm currentUrl prompt depth hd]
    intro r hr
    rcases List.mem_cons.mp hr with hEq | hmem
    · subst hEq
      exact hdm dm rfl
    · rw [ih hpr] at hmem
      exact absurd hmem (List.not_mem_nil r)
  · intro st currentUrl prompt depth dm hd hpr hdm
    rw [extract_eq_stop C w st dm currentUrl prompt depth hd]
    intro r hr
    rcases List.mem_singleton.mp hr with rfl
    exact hdm dm rfl
  · intro st prompt depth hpr
    rw [follow_eq_nil]
  · intro st prompt depth l ls h ih hpr
    rw [follow_eq_normfail C w st l ls prompt depth h]
    exact ih hpr
  · intro st prompt depth l ls nu h hs o₁ ih1 ih3 hpr
    rw [follow_eq_hit C w st l ls prompt depth nu h hs]
    show (scrape C w st nu prompt depth).1 ++
      (follow_links C w (scrape C w st nu prompt depth).2.1 ls prompt depth).1 = []
    rw [ih1 hpr, ih3 hpr]
    rfl
  · intro st prompt depth l ls nu h hs ih hpr
    rw [follow_eq_skip C w st l ls prompt depth nu h hs]
    exact ih hpr

/-! ### Preprocessing normal forms -/

theorem toNat_ofNat_small (n : Nat) (h : n < 55296) : (Char.ofNat n).toNat = n := by
  unfold Char.ofNat
  rw [dif_pos (Or.inl h)]
  rfl

theorem lowerChar_idem (c : Char) : lowerChar (lowerChar c) = lowerChar c := by
  unfold lowerChar
  by_cases h : 65 ≤ c.toNat ∧ c.toNat ≤ 90
  · rw [if_pos h]
    have hv : (Char.ofNat (c.toNat + 32)).toNat = c.toNat + 32 :=
      toNat_ofNat_small _ (by omega)
    rw [if_neg (by rw [hv]; omega)]
  · rw [if_neg h, if_neg h]

theorem lowerChar_blank : lowerChar ' ' = ' ' := by decide

/-- No two adjacent characters are both whitespace. -/
def NoAdjSpace (l : List Char) : Prop :=
  List.Chain' (fun a b => ¬(isPySpace a = true ∧ isPySpace b = true)) l

theorem mem_collapseSpace {c : Char} :
    ∀ (l : List Char), c ∈ collapseSpace l →
      c = ' ' ∨ (c ∈ l ∧ isPySpace c = false) := by
  intro l
  induction l with
  | nil => intro h; simp [collapseSpace] at h
  | cons a tail ih =>
    cases tail with
    | nil =>
      intro h
      by_cases ha : isPySpace a = true
      · simp [collapseSpace, ha] at h
        exact Or.inl h
      · simp [collapseSpace, ha] at h
        subst h
        exact Or.inr ⟨List.mem_singleton.mpr rfl, by simpa using ha⟩
    | cons d rest =>
      intro h
      by_cases ha : isPySpace a = true
      · by_cases hd : isPySpace d = true
        · rw [show collapseSpace (a :: d :: rest) = collapseSpace (d :: rest) from by
            simp [collapseSpace, ha, hd]] at h
          rcases ih h with h1 | ⟨h2, h3⟩
          · exact Or.inl h1
          · exact Or.inr ⟨List.mem_cons_of_mem _ h2, h3⟩
        · rw [show collapseSpace (a :: d :: rest) = ' ' :: collapseSpace (d :: rest) from by
            simp [collapseSpace, ha, hd]] at h
          rcases List.mem_cons.mp h with rfl | h
          · exact Or.inl rfl
          · rcases ih h with h1 | ⟨h2, h3⟩
            · exact Or.inl h1
            · exact Or.inr ⟨List.mem_cons_of_mem _ h2, h3⟩
      · rw [show collapseSpace (a :: d :: rest) = a :: collapseSpace (d :: rest) from by
          simp [collapseSpace, ha]] at h
        rcases List.mem_cons.mp h with rfl | h
        · exact Or.inr ⟨List.mem_cons_self _ _, by simpa using ha⟩
        · rcases ih h with h1 | ⟨h2, h3⟩
          · exact Or.inl h1
          · exact Or.inr ⟨List.mem_cons_of_mem _ h2, h3⟩

theorem collapseSpace_blank {c : Char} {l : List Char}
    (h : c ∈ collapseSpace l) (hs : isPySpace c = true) : c = ' ' := by
  rcases mem_collapseSpace l h with h1 | ⟨_, h3⟩
  · exact h1
  · rw [hs] at h3
    cases h3

theorem collapseSpace_head :
    ∀ (d : Char) (rest : List Char),
      (collapseSpace (d :: rest)).head? = some (if isPySpace d then ' ' else d) := by
  intro d rest
  induction rest generalizing d with
  | nil =>
    by_cases hd : isPySpace d = true <;> simp [collapseSpace, hd]
  | cons e r ih =>
    by_cases hd : isPySpace d = true
    · by_cases he : isPySpace e = true
      · rw [show collapseSpace (d :: e :: r) = collapseSpace (e :: r) from by
          simp [collapseSpace, hd, he]]
        rw [ih e]
        simp [he, hd]
      · rw [show collapseSpace (d :: e :: r) = ' ' :: collapseSpace (e :: r) from by
          simp [collapseSpace, hd, he]]
        simp [hd]
    · rw [show collapseSpace (d :: e :: r) = d :: collapseSpace (e :: r) from by
        simp [collapseSpace, hd]]
      simp [hd]

theorem collapseSpace_noAdj : ∀ (l : List Char), NoAdjSpace (collapseSpace l) := by
  intro l
  induction l with
  | nil => exact List.chain'_nil
  | cons a tail ih =>
    cases tail with
    | nil =>
      by_cases ha : isPySpace a = true <;>
        simp [collapseSpace, ha, NoAdjSpace]
    | cons d rest =>
      by_cases ha : isPySpace a = true
      · by_cases hd : isPySpace d = true
        · rw [show collapseSpace (a :: d :: rest) = collapseSpace (d :: rest) from by
            simp [collapseSpace, ha, hd]]
          exact ih
        · rw [show collapseSpace (a :: d :: rest) = ' ' :: collapseSpace (d :: rest) from by
            simp [collapseSpace, ha, hd]]
          rw [show collapseSpace (d :: rest) = d :: (collapseSpace (d :: rest)).tail from by
            have hh := collapseSpace_head d rest
            rw [if_neg (by simpa using hd)] at hh
            cases he : collapseSpace (d :: rest) with
            | nil => rw [he] at hh; cases hh
            | cons x xs => rw [he] at hh; cases hh; rfl]
          rw [NoAdjSpace, List.chain'_cons]
          constructor
          · intro hcon
            exact hd hcon.2
          · rw [show d :: (collapseSpace (d :: rest)).tail = collapseSpace (d :: rest) from by
              have hh := collapseSpace_head d rest
              rw [if_neg (by simpa using hd)] at hh
              cases he : collapseSpace (d :: rest) with
              | nil => rw [he] at hh; cases hh
              | cons x xs => rw [he] at hh; cases hh; rfl]
            exact ih
      · cases he : collapseSpace (d :: rest) with
        | nil =>
          rw [show collapseSpace (a :: d :: rest) = a :: collapseSpace (d :: rest) from by
            simp [collapseSpace, ha], he]
          exact List.chain'_singleton a
        | cons x xs =>
          rw [show collapseSpace (a :: d :: rest) = a :: collapseSpace (d :: rest) from by
            simp [collapseSpace, ha], he]
          rw [NoAdjSpace, List.chain'_cons]
          refine ⟨fun hcon => ?_, by rw [← he]; exact ih⟩
          exact ha hcon.1

theorem collapseSpace_fixed :
    ∀ (l : List Char), NoAdjSpace l → (∀ c ∈ l, isPySpace c = true → c = ' ') →
      collapseSpace l = l := by
  intro l
  induction l with
  | nil => intro _ _; rfl
  | cons a tail ih =>
    cases tail with
    | nil =>
      intro _ hblank
      by_cases ha : isPySpace a = true
      · have : a = ' ' := hblank a (List.mem_singleton.mpr rfl) ha
        subst this
        simp [collapseSpace]
      · simp [collapseSpace, ha]
    | cons d rest =>
      intro hadj hblank
      have hadj' : ¬(isPySpace a = true ∧ isPySpace d = true) :=
        (List.chain'_cons.mp hadj).1
      have htail : NoAdjSpace (d :: rest) := (List.chain'_cons.mp hadj).2
      have hbtail : ∀ c ∈ d :: rest, isPySpace c = true → c = ' ' :=
        fun c hc => hblank c (List.mem_cons_of_mem _ hc)
      by_cases ha : isPySpace a = true
      · have hd : ¬ isPySpace d = true := fun hd => hadj' ⟨ha, hd⟩
        rw [show collapseSpace (a :: d :: rest) = ' ' :: collapseSpace (d :: rest) from by
          simp [collapseSpace, ha, hd]]
        rw [ih htail hbtail, hblank a (List.mem_cons_self _ _) ha]
      · rw [show collapseSpace (a :: d :: rest) = a :: collapseSpace (d :: rest) from by
          simp [collapseSpace, ha]]
        rw [ih htail hbtail]

theorem head?_dropWhile_nonspace (l : List Char) :
    ∀ c, (l.dropWhile isPySpace).head? = some c → isPySpace c = false := by
  induction l with
  | nil => intro c h; simp at h
  | cons a tail ih =>
    intro c h
    by_cases ha : isPySpace a = true
    · rw [List.dropWhile_cons_of_pos ha] at h
      exact ih c h
    · rw [List.dropWhile_cons_of_neg ha] at h
      cases h
      simpa using ha

theorem dropWhile_eq_self_of_head (l : List Char)
    (h : ∀ c, l.head? = some c → isPySpace c = false) :
    l.dropWhile isPySpace = l := by
  cases l with
  | nil => rfl
  | cons a tail =>
    rw [List.dropWhile_cons_of_neg]
    simp [h a rfl]

theorem stripChars_sublist (l : List Char) : (stripChars l).Sublist l := by
  unfold stripChars
  have h2 : ((l.dropWhile isPySpace).reverse.dropWhile isPySpace) <:+
      (l.dropWhile isPySpace).reverse := List.dropWhile_suffix _
  have h3 : ((l.dropWhile isPySpace).reverse.dropWhile isPySpace).reverse <+:
      (l.dropWhile isPySpace) := by
    rw [← List.reverse_suffix]
    simpa using h2
  exact h3.sublist.trans (List.dropWhile_suffix isPySpace).sublist

theorem stripChars_chain {R : Char → Char → Prop}
    (hsym : ∀ a b, R a b → R b a) (l : List Char)
    (h : List.Chain' R l) : List.Chain' R (stripChars l) := by
  unfold stripChars
  have h1 : List.Chain' R (l.dropWhile isPySpace) :=
    h.suffix (List.dropWhile_suffix _)
  have h2 : List.Chain' R (l.dropWhile isPySpace).reverse := by
    rw [List.chain'_reverse]
    exact h1.imp (fun a b hab => hsym a b hab)
  have h3 : List.Chain' R ((l.dropWhile isPySpace).reverse.dropWhile isPySpace) :=
    h2.suffix (List.dropWhile_suffix _)
  rw [List.chain'_reverse]
  exact h3.imp (fun a b hab => hsym a b hab)

theorem isPrefix_head?_eq {l₁ l₂ : List Char} (h : l₁ <+: l₂) {c : Char}
    (hc : l₁.head? = some c) : l₂.head? = some c := by
  obtain ⟨t, rfl⟩ := h
  cases l₁ with
  | nil => cases hc
  | cons a tl => cases hc; rfl

theorem stripChars_head (l : List Char) :
    ∀ c, (stripChars l).head? = some c → isPySpace c = false := by
  intro c hc
  have hpre : (stripChars l) <+: (l.dropWhile isPySpace) := by
    unfold stripChars
    rw [← List.reverse_suffix]
    simpa using List.dropWhile_suffix (l := (l.dropWhile isPySpace).reverse) isPySpace
  exact head?_dropWhile_nonspace l c (isPrefix_head?_eq hpre hc)

theorem stripChars_last (l : List Char) :
    ∀ c, (stripChars l).getLast? = some c → isPySpace c = false := by
  intro c hc
  unfold stripChars at hc
  rw [List.getLast?_reverse] at hc
  exact head?_dropWhile_nonspace (l.dropWhile isPySpace).reverse c hc

theorem stripChars_fixed (l : List Char)
    (hh : ∀ c, l.head? = some c → isPySpace c = false)
    (hl : ∀ c, l.getLast? = some c → isPySpace c = false) :
    stripChars l = l := by
  unfold stripChars
  rw [dropWhile_eq_self_of_head l hh]
  rw [dropWhile_eq_self_of_head l.reverse (by
    intro c hc
    rw [List.head?_reverse] at hc
    exact hl c hc)]
  exact List.reverse_reverse l

/-- The characters of the preprocessed text: blanks or word characters,
fixed under lowercasing, whitespace only as isolated blanks. -/
theorem preprocess_chars {s : String} {c : Char}
    (h : c ∈ (preprocess_text s).data) :
    lowerChar c = c ∧ (isWordChar c = true ∨ c = ' ') ∧
      (isPySpace c = true → c = ' ') := by
  have hmem : c ∈ collapseSpace (replaceSpecial (s.data.map lowerChar)) :=
    (stripChars_sublist _).mem h
  have hblank : isPySpace c = true → c = ' ' := collapseSpace_blank hmem
  rcases mem_collapseSpace _ hmem with rfl | ⟨hmem', _⟩
  · exact ⟨lowerChar_blank, Or.inr rfl, fun _ => rfl⟩
  · rw [replaceSpecial, List.mem_map] at hmem'
    obtain ⟨c₀, hc₀, heq⟩ := hmem'
    by_cases hw : isWordChar c₀ = true ∨ isPySpace c₀ = true
    · rw [if_pos (by simpa using hw)] at heq
      rw [List.mem_map] at hc₀
      obtain ⟨c₁, _, hc₁⟩ := hc₀
      subst heq
      subst hc₁
      refine ⟨lowerChar_idem c₁, ?_, hblank⟩
      rcases hw with hw | hw
      · exact Or.inl hw
      · exact Or.inr (hblank hw)
    · rw [if_neg (by simpa using hw)] at heq
      subst heq
      exact ⟨lowerChar_blank, Or.inr rfl, fun _ => rfl⟩

/-- The preprocessed text is already lowercase. -/
theorem pyLower_preprocess (s : String) :
    pyLower (preprocess_text s) = preprocess_text s := by
  unfold pyLower
  congr 1
  rw [List.map_congr_left (fun c hc => (preprocess_chars hc).1)]
  exact List.map_id _

/-! ### Relevance decision, specification form -/

/-- Holds when `wd` is a keyword of the (already preprocessed) string `s`: one of
its tokens that is not a stopword, has length greater than 2 and is not
purely numeric. -/
def IsKeyword (C : Collab) (wd s : String) : Prop :=
  wd ∈ C.tokenize s ∧ wd ∉ C.stopWords ∧ 2 < wd.data.length ∧ pyIsNumeric wd = false

/-- The tiered relevance decision as the specification words it: false
when either preprocessed input is empty, otherwise the disjunction of
the TF-IDF tier (failure is a miss), the keyword-overlap tier and the
partial-containment tier over the keywords of the two preprocessed
strings. -/
def RelevantSpec (C : Collab) (text prompt : String) (threshold : ℚ) : Prop :=
  preprocess_text text ≠ "" ∧ preprocess_text prompt ≠ "" ∧
    ((∃ sim, C.tfidf (preprocess_text prompt) (preprocess_text text) = some sim ∧
        threshold ≤ sim) ∨
     (∃ wd, IsKeyword C wd (preprocess_text prompt) ∧
        IsKeyword C wd (preprocess_text text)) ∨
     (∃ pw tw, IsKeyword C pw (preprocess_text prompt) ∧
        IsKeyword C tw (preprocess_text text) ∧
        ((3 < pw.data.length ∧ pyInStr pw tw = true) ∨
         (3 < tw.data.length ∧ pyInStr tw pw = true))))

theorem mem_extract_keywords (C : Collab) (s wd : String) :
    wd ∈ extract_keywords C (preprocess_text s) ↔ IsKeyword C wd (preprocess_text s) := by
  unfold extract_keywords IsKeyword
  rw [pyLower_preprocess]
  rw [List.mem_filter]
  constructor
  · rintro ⟨h1, h2⟩
    simp only [Bool.and_eq_true, Bool.not_eq_true'] at h2
    refine ⟨h1, ?_, of_decide_eq_true h2.1.2, h2.2⟩
    intro hmem
    rw [show C.stopWords.contains wd = true from List.elem_iff.mpr hmem] at h2
    cases h2.1.1
  · rintro ⟨h1, h2, h3, h4⟩
    refine ⟨h1, ?_⟩
    simp only [Bool.and_eq_true, Bool.not_eq_true']
    refine ⟨⟨?_, decide_eq_true h3⟩, h4⟩
    cases hc : C.stopWords.contains wd
    · rfl
    · exact absurd (List.elem_iff.mp hc) h2

theorem preprocess_empty : preprocess_text "" = "" := rfl

/-! ### Scheme detection for URL normalization -/

/-- A URL possesses a scheme, per the scheme-detection rule of
`urlsplit` (also the notion behind `is_valid_url`'s scheme check). -/
def hasScheme (u : String) : Bool :=
  !(pySplitScheme u.data).1.isEmpty

theorem hasScheme_of_http {u : String}
    (h : pyStartsWith u "http://" = true ∨ pyStartsWith u "https://" = true) :
    hasScheme u = true := by
  rcases h with h | h
  · have hp : ("http://".data).IsPrefix u.data := by
      rw [← List.isPrefixOf_iff_prefix]
      exact h
    obtain ⟨t, ht⟩ := hp
    unfold hasScheme pySplitScheme
    rw [← ht]
    simp [findIdxChar, schemeChar]
  · have hp : ("https://".data).IsPrefix u.data := by
      rw [← List.isPrefixOf_iff_prefix]
      exact h
    obtain ⟨t, ht⟩ := hp
    unfold hasScheme pySplitScheme
    rw [← ht]
    simp [findIdxChar, schemeChar]

theorem normalize_url_of_empty (base : Option String) : normalize_url base "" = none := rfl

theorem normalize_url_of_http {base : Option String} {u : String}
    (h : pyStartsWith u "http://" = true ∨ pyStartsWith u "https://" = true) :
    normalize_url base u = some u := by
  have hne : u ≠ "" := by
    rintro rfl
    rcases h with h | h <;> cases h
  unfold normalize_url
  rw [if_neg hne]
  rcases h with h | h <;> simp [h]

theorem normalize_url_of_noscheme {base : Option String} {u : String}
    (hne : u ≠ "") (hs : hasScheme u = false) :
    normalize_url base u = pyUrljoin (base.getD "") u := by
  have h1 : pyStartsWith u "http://" = false := by
    cases hh : pyStartsWith u "http://"
    · rfl
    · rw [hasScheme_of_http (Or.inl hh)] at hs
      cases hs
  have h2 : pyStartsWith u "https://" = false := by
    cases hh : pyStartsWith u "https://"
    · rfl
    · rw [hasScheme_of_http (Or.inr hh)] at hs
      cases hs
  unfold normalize_url
  rw [if_neg hne]
  rw [if_neg (by simp [h1, h2])]
  cases h : pyUrljoin (base.getD "") u <;> rfl

/-! ### Result processing, specification form -/

/-- The map `filterByPrompt` as the specification words it: keep the pages with
at least one relevant block, keep exactly their relevant blocks in the
original order, and score each kept page by relevant count over original
count. -/
def filterByPromptSpec (C : Collab) (pages : List PageRecord) (p : String) : List PageRecord :=
  (pages.filter
      (fun r => r.content.any (fun c => is_relevant_to_prompt C c p defaultThreshold))).map
    (fun r =>
      { url := r.url, title := r.title,
        content := r.content.filter (fun c => is_relevant_to_prompt C c p defaultThreshold),
        relevance_score := some
          (((r.content.filter (fun c => is_relevant_to_prompt C c p defaultThreshold)).length : ℚ)
            / (r.content.length : ℚ)) })

theorem filterMap_eq_filterByPromptSpec (C : Collab) (p : String) :
    ∀ pages : List PageRecord,
      pages.filterMap (processedPage C p) = filterByPromptSpec C pages p := by
  intro pages
  unfold filterByPromptSpec
  induction pages with
  | nil => rfl
  | cons r rest ih =>
    rw [List.filterMap_cons, List.filter_cons]
    by_cases h : 0 < (r.content.filter (fun c => is_relevant_to_prompt C c p defaultThreshold)).length
    · have hany : (r.content.any fun c => is_relevant_to_prompt C c p defaultThreshold) = true := by
        rw [List.any_eq_true]
        obtain ⟨x, hx⟩ := List.exists_mem_of_length_pos h
        exact ⟨x, (List.mem_filter.mp hx).1, (List.mem_filter.mp hx).2⟩
      rw [hany, if_pos rfl]
      rw [show processedPage C p r = some
          { url := r.url, title := r.title,
            content := r.content.filter (fun c => is_relevant_to_prompt C c p defaultThreshold),
            relevance_score := some
              (((r.content.filter (fun c => is_relevant_to_prompt C c p defaultThreshold)).length : ℚ)
                / (r.content.length : ℚ)) } from by
        unfold processedPage
        simp only [if_pos h]]
      rw [List.map_cons, ih]
    · have hany : (r.content.any fun c => is_relevant_to_prompt C c p defaultThreshold) = false := by
        rw [Bool.eq_false_iff]
        intro hc
        rw [List.any_eq_true] at hc
        obtain ⟨x, hx, hpx⟩ := hc
        refine h (List.length_pos.mpr (fun hnil => ?_))
        rw [List.eq_nil_iff_forall_not_mem] at hnil
        exact hnil x (List.mem_filter.mpr ⟨hx, hpx⟩)
      rw [hany, if_neg (by simp)]
      rw [show processedPage C p r = none from by
        unfold processedPage
        simp only [if_neg h]]
      exact ih

/-- One top-level request against a client session. -/
structure Request where
  url : String
  prompt : Option String
  depth : Int

/-- A sequence of top-level `scrape` calls against one session,
returning the final state and the concatenated render trace. -/
def runSession (C : Collab) (w : World) : List Request → CrawlState → CrawlState × List String
  | [], st => (st, [])
  | r :: rs, st =>
    let o := scrape C w st r.url r.prompt r.depth
    let rest := runSession C w rs o.2.1
    (rest.1, o.2.2 ++ rest.2)

/-- The visited-set invariant composes over a whole session of top-level
calls. -/
theorem stInv_runSession (C : Collab) (w : World) :
    ∀ (reqs : List Request) (st : CrawlState),
      StInv st (runSession C w reqs st).1 (runSession C w reqs st).2 := by
  intro reqs
  induction reqs with
  | nil => intro st; exact stInv_refl st
  | cons r rs ih =>
    intro st
    have h1 := (stInv_all C w).1 st r.url r.prompt r.depth
    have h2 := ih (scrape C w st r.url r.prompt r.depth).2.1
    simpa [runSession] using stInv_comp h1 h2


/-! ### Concrete fixtures -/

/-- Whitespace tokenizer for the concrete fixtures. -/
def spaceTokenize (s : String) : List String :=
  (s.data.splitOn ' ').map (fun l => (⟨l⟩ : String))

/-- Concrete collaborator: whitespace tokenizer, no stopwords, a TF-IDF
tier that always raises. -/
def fixC : Collab := ⟨spaceTokenize, [], fun _ _ => none⟩

/-- Seed page of the depth-0 fixture: one long paragraph, one link. -/
def domC2 : Dom :=
  ⟨some "Seed", fun t => if t = "p" then ["here is a sufficiently long paragraph"] else [],
   ["http://a.com/b"]⟩

def wC2 : World := ⟨[("http://a.com/", ⟨"http://a.com/", some domC2⟩)]⟩

/-- Relevance-score fixture: the seed page links to a page with one
relevant and one irrelevant content block. -/
def domA3 : Dom :=
  ⟨some "A", fun t => if t = "p" then ["this paragraph talks about analytics today"] else [],
   ["http://a.com/b"]⟩

def domB3 : Dom :=
  ⟨some "B",
   fun t => if t = "p" then
      ["analytics dashboard overview page here", "zqx wvu tsr qpo nml kji"] else [],
   []⟩

def pgA3 : Page := ⟨"http://a.com/", some domA3⟩
def pgB3 : Page := ⟨"http://a.com/b", some domB3⟩
def wC3 : World := ⟨[("http://a.com/", pgA3), ("http://a.com/b", pgB3)]⟩

/-- Branching fixture: the seed page links to two leaf pages. -/
def domA6 : Dom := ⟨some "A", fun _ => [], ["http://a.com/b", "http://a.com/c"]⟩
def domLeaf : Dom := ⟨some "L", fun _ => [], []⟩
def wC6 : World :=
  ⟨[("http://a.com/", ⟨"http://a.com/", some domA6⟩),
    ("http://a.com/b", ⟨"http://a.com/b", some domLeaf⟩),
    ("http://a.com/c", ⟨"http://a.com/c", some domLeaf⟩)]⟩

/-- No-match fixture: one page whose only block matches no prompt. -/
def domIrr : Dom :=
  ⟨some "I", fun t => if t = "p" then ["zqx wvu tsr qpo nml kji"] else [], []⟩
def wIrr : World := ⟨[("http://a.com/", ⟨"http://a.com/", some domIrr⟩)]⟩

/-- The session state after the seed of the `a.com` fixtures has been
marked visited. -/
def stSeed : CrawlState := ⟨["http://a.com/"], some "http://a.com/"⟩

/-! ### Concrete executions -/

theorem run3_b :
    scrape fixC wC3 stSeed "http://a.com/b" (some "analytics") 0 =
      ([⟨"http://a.com/b", "B", ["analytics dashboard overview page here"], some (1/2)⟩],
       ⟨["http://a.com/b", "http://a.com/"], some "http://a.com/"⟩, ["http://a.com/b"]) := by
  rw [scrape_eq_render fixC wC3 stSeed "http://a.com/b" (some "analytics") 0 "http://a.com/b" pgB3
    (by decide) (by decide) (by decide) rfl]
  simp only [show pgB3.dom = some domB3 from rfl, show pgB3.finalUrl = "http://a.com/b" from rfl]
  rw [extract_eq_stop fixC wC3 _ domB3 _ (some "analytics") 0 (by omega)]
  simp only [show titleOf domB3 = "B" from rfl,
    show extractContent domB3 =
      ["analytics dashboard overview page here", "zqx wvu tsr qpo nml kji"] from by decide,
    show optTruthy (some "analytics") = true from rfl, if_true]
  simp [process_results, stSeed,
    show is_relevant_to_prompt fixC "analytics dashboard overview page here" "analytics"
        defaultThreshold = true from by decide,
    show is_relevant_to_prompt fixC "zqx wvu tsr qpo nml kji" "analytics"
        defaultThreshold = false from by decide]
  all_goals decide

theorem run3_links :
    follow_links fixC wC3 stSeed ["http://a.com/b"] (some "analytics") 0 =
      ([⟨"http://a.com/b", "B", ["analytics dashboard overview page here"], some (1/2)⟩],
       ⟨["http://a.com/b", "http://a.com/"], some "http://a.com/"⟩, ["http://a.com/b"]) := by
  rw [follow_eq_hit fixC wC3 stSeed "http://a.com/b" [] (some "analytics") 0 "http://a.com/b"
    (by decide) (by decide)]
  simp only [run3_b, follow_eq_nil]
  simp

theorem run3_top :
    scrape fixC wC3 freshState "http://a.com/" (some "analytics") 1 =
      ([⟨"http://a.com/", "A", ["this paragraph talks about analytics today"], some 1⟩,
        ⟨"http://a.com/b", "B", ["analytics dashboard overview page here"], some 1⟩],
       ⟨["http://a.com/b", "http://a.com/"], some "http://a.com/"⟩,
       ["http://a.com/", "http://a.com/b"]) := by
  rw [scrape_eq_render fixC wC3 freshState "http://a.com/" (some "analytics") 1 "http://a.com/" pgA3
    (by decide) (by decide) (by decide) rfl]
  simp only [show pgA3.dom = some domA3 from rfl, show pgA3.finalUrl = "http://a.com/" from rfl,
    show ({ visited := "http://a.com/" :: (baseFix freshState "http://a.com/").visited,
            base := (baseFix freshState "http://a.com/").base } : CrawlState) = stSeed from by decide]
  rw [extract_eq_follow fixC wC3 stSeed domA3 "http://a.com/" (some "analytics") 1 (by omega)]
  simp only [show domA3.links = ["http://a.com/b"] from rfl,
    show ((1 : Int) - 1) = 0 from by decide, run3_links]
  simp only [show titleOf domA3 = "A" from rfl,
    show extractContent domA3 = ["this paragraph talks about analytics today"] from by decide,
    show optTruthy (some "analytics") = true from rfl, if_true]
  simp [process_results,
    show is_relevant_to_prompt fixC "this paragraph talks about analytics today" "analytics"
        defaultThreshold = true from by decide,
    show is_relevant_to_prompt fixC "analytics dashboard overview page here" "analytics"
        defaultThreshold = true from by decide]

theorem run6_b :
    scrape fixC wC6 stSeed "http://a.com/b" none 0 =
      ([⟨"http://a.com/b", "L", [], none⟩],
       ⟨["http://a.com/b", "http://a.com/"], some "http://a.com/"⟩, ["http://a.com/b"]) := by
  rw [scrape_eq_render fixC wC6 stSeed "http://a.com/b" none 0 "http://a.com/b"
    ⟨"http://a.com/b", some domLeaf⟩ (by decide) (by decide) (by decide) rfl]
  rw [extract_eq_stop fixC wC6 _ domLeaf _ none 0 (by omega)]
  simp [titleOf, domLeaf, extractContent, rawTexts, contentTags, optTruthy]
  all_goals decide

theorem run6_c :
    scrape fixC wC6 ⟨["http://a.com/b", "http://a.com/"], some "http://a.com/"⟩
      "http://a.com/c" none 0 =
      ([⟨"http://a.com/c", "L", [], none⟩],
       ⟨["http://a.com/c", "http://a.com/b", "http://a.com/"], some "http://a.com/"⟩,
       ["http://a.com/c"]) := by
  rw [scrape_eq_render fixC wC6 _ "http://a.com/c" none 0 "http://a.com/c"
    ⟨"http://a.com/c", some domLeaf⟩ (by decide) (by decide) (by decide) rfl]
  rw [extract_eq_stop fixC wC6 _ domLeaf _ none 0 (by omega)]
  simp [titleOf, domLeaf, extractContent, rawTexts, contentTags, optTruthy]
  all_goals decide

theorem run6_links :
    follow_links fixC wC6 stSeed ["http://a.com/b", "http://a.com/c"] none 0 =
      ([⟨"http://a.com/b", "L", [], none⟩, ⟨"http://a.com/c", "L", [], none⟩],
       ⟨["http://a.com/c", "http://a.com/b", "http://a.com/"], some "http://a.com/"⟩,
       ["http://a.com/b", "http://a.com/c"]) := by
  rw [follow_eq_hit fixC wC6 stSeed "http://a.com/b" ["http://a.com/c"] none 0 "http://a.com/b"
    (by decide) (by decide)]
  simp only [run6_b]
  rw [follow_eq_hit fixC wC6 _ "http://a.com/c" [] none 0 "http://a.com/c"
    (by decide) (by decide)]
  simp only [run6_c, follow_eq_nil]
  simp

theorem run6_top :
    scrape fixC wC6 freshState "http://a.com/" none 1 =
      ([⟨"http://a.com/", "A", [], none⟩,
        ⟨"http://a.com/b", "L", [], none⟩, ⟨"http://a.com/c", "L", [], none⟩],
       ⟨["http://a.com/c", "http://a.com/b", "http://a.com/"], some "http://a.com/"⟩,
       ["http://a.com/", "http://a.com/b", "http://a.com/c"]) := by
  rw [scrape_eq_render fixC wC6 freshState "http://a.com/" none 1 "http://a.com/"
    ⟨"http://a.com/", some domA6⟩ (by decide) (by decide) (by decide) rfl]
  simp only [show ({ visited := "http://a.com/" :: (baseFix freshState "http://a.com/").visited,
                     base := (baseFix freshState "http://a.com/").base } : CrawlState) = stSeed
    from by decide]
  rw [extract_eq_follow fixC wC6 stSeed domA6 "http://a.com/" none 1 (by omega)]
  simp only [show domA6.links = ["http://a.com/b", "http://a.com/c"] from rfl,
    show ((1 : Int) - 1) = 0 from by decide, run6_links]
  simp [titleOf, domA6, extractContent, rawTexts, contentTags, optTruthy]
  all_goals decide

theorem run7_invalid :
    scrape fixC wIrr freshState "notaurl" (some "analytics") 1 =
      ([], ⟨[], some "notaurl"⟩, []) := by
  rw [scrape_eq_invalid fixC wIrr freshState "notaurl" (some "analytics") 1 "notaurl"
    (by decide) (by decide)]
  decide

theorem run7_nomatch :
    scrape fixC wIrr freshState "http://a.com/" (some "analytics") 1 =
      ([], stSeed, ["http://a.com/"]) := by
  rw [scrape_eq_render fixC wIrr freshState "http://a.com/" (some "analytics") 1 "http://a.com/"
    ⟨"http://a.com/", some domIrr⟩ (by decide) (by decide) (by decide) rfl]
  simp only [show ({ visited := "http://a.com/" :: (baseFix freshState "http://a.com/").visited,
                     base := (baseFix freshState "http://a.com/").base } : CrawlState) = stSeed
    from by decide]
  rw [extract_eq_follow fixC wIrr stSeed domIrr "http://a.com/" (some "analytics") 1 (by omega)]
  simp only [show domIrr.links = ([] : List String) from rfl, follow_eq_nil]
  simp only [show titleOf domIrr = "I" from rfl,
    show extractContent domIrr = ["zqx wvu tsr qpo nml kji"] from by decide,
    show optTruthy (some "analytics") = true from rfl, if_true]
  simp [process_results,
    show is_relevant_to_prompt fixC "zqx wvu tsr qpo nml kji" "analytics"
        defaultThreshold = false from by decide]

theorem filterMap_good (C : Collab) (p : String) :
    ∀ rs : List PageRecord, (∀ r ∈ rs, GoodRec C p r) →
      rs.filterMap (processedPage C p) =
        rs.map (fun r => { url := r.url, title := r.title, content := r.content,
                           relevance_score := some 1 }) := by
  intro rs h
  induction rs with
  | nil => rfl
  | cons r rest ih =>
    rw [List.filterMap_cons, processedPage_good C p r (h r (List.mem_cons_self _ _))]
    rw [List.map_cons, ih (fun r' hr' => h r' (List.mem_cons_of_mem _ hr'))]

/-- Bool-and-Prop three-tier early-return chain, as a disjunction. -/
theorem ite_chain_true {b1 b3 : Bool} {P2 : Prop} [Decidable P2] :
    (if b1 = true then true else if P2 then true else if b3 = true then true else false) = true ↔
      b1 = true ∨ P2 ∨ b3 = true := by
  by_cases h1 : b1 = true
  · simp [h1]
  · by_cases h2 : P2
    · simp [h1, h2]
    · by_cases h3 : b3 = true
      · simp [h1, h2, h3]
      · simp [h1, h2, h3]

/-! ### Claim theorems -/

/-- C1: within one crawl session, every URL passed to the render
collaborator is inserted into the visited set (every rendered URL is in
the session's visited set, and was not yet visited when its call
started), and no URL is rendered twice: over any sequence of top-level
`scrape` calls in one session, the rendered URLs are pairwise
distinct. -/
theorem c1_rendered_once_and_visited (C : Collab) (w : World) (reqs : List Request) :
    (runSession C w reqs freshState).2.Nodup ∧
    ∀ u ∈ (runSession C w reqs freshState).2,
      u ∈ (runSession C w reqs freshState).1.visited := by
  obtain ⟨_, hn, hf, _⟩ := stInv_runSession C w reqs freshState
  exact ⟨hn, fun u hu => (hf u hu).1⟩

/-- C2: with no prompt and depth 0, a successfully rendered and
extracted seed yields exactly one page record (the seed's own) and a
single render call (none of its links is followed); any invocation with
negative depth returns the empty result without rendering; at positive
budget `extract_data` follows the page's links with budget decreased by
exactly 1, and each followed link is scraped at exactly that decremented
budget. -/
theorem c2_depth_semantics :
    (∀ (C : Collab) (w : World) (st : CrawlState) (url u : String) (pg : Page) (dm : Dom),
      normalize_url (baseFix st url).base url = some u →
      is_valid_url u = true →
      u ∉ (baseFix st url).visited →
      renderW w u = some pg →
      pg.dom = some dm →
      scrape C w st url none 0 =
        ([{ url := pg.finalUrl, title := titleOf dm, content := extractContent dm,
            relevance_score := none }],
         { visited := u :: (baseFix st url).visited, base := (baseFix st url).base }, [u])) ∧
    (∀ (C : Collab) (w : World) (st : CrawlState) (url : String) (prompt : Option String) (d : Int),
      d < 0 → scrape C w st url prompt d = ([], baseFix st url, [])) ∧
    (∀ (C : Collab) (w : World) (st : CrawlState) (dm : Dom) (curl : String)
        (prompt : Option String) (d : Int), 0 < d →
      extract_data C w st (some dm) curl prompt d =
        (let nested := follow_links C w st dm.links prompt (d - 1)
         ({ url := curl, title := titleOf dm, content := extractContent dm,
            relevance_score := none } :: nested.1, nested.2.1, nested.2.2))) ∧
    (∀ (C : Collab) (w : World) (st : CrawlState) (l : String) (ls : List String)
        (prompt : Option String) (d : Int) (nu : String),
      normalize_url st.base l = some nu → nu ≠ "" ∧ is_same_domain st.base nu = true →
      follow_links C w st (l :: ls) prompt d =
        (let o₁ := scrape C w st nu prompt d
         let o₂ := follow_links C w o₁.2.1 ls prompt d
         (o₁.1 ++ o₂.1, o₂.2.1, o₁.2.2 ++ o₂.2.2))) := by
  refine ⟨?_, ?_, ?_, ?_⟩
  · intro C w st url u pg dm hn hv hnm hr hd
    rw [scrape_eq_render C w st url none 0 u pg hn hv (not_or.mpr ⟨hnm, by omega⟩) hr]
    simp only [hd]
    rw [extract_eq_stop C w _ dm _ none 0 (by omega)]
    rfl
  · intro C w st url prompt d hd
    rcases hn : normalize_url (baseFix st url).base url with _ | u
    · exact scrape_eq_normfail C w st url prompt d hn
    · by_cases hv : is_valid_url u = true
      · exact scrape_eq_skip C w st url prompt d u hn hv (Or.inr hd)
      · exact scrape_eq_invalid C w st url prompt d u hn hv
  · intro C w st dm curl prompt d hd
    exact extract_eq_follow C w st dm curl prompt d hd
  · intro C w st l ls prompt d nu hn hs
    exact follow_eq_hit C w st l ls prompt d nu hn hs

/-- Witness for C2 on the concrete depth-0 fixture. -/
theorem c2_depth_semantics_witness :
    scrape fixC wC2 freshState "http://a.com/" none 0 =
      ([{ url := ("http://a.com/" : String), title := titleOf domC2,
          content := extractContent domC2, relevance_score := none }],
       ⟨["http://a.com/"], some "http://a.com/"⟩, ["http://a.com/"]) ∧
    scrape fixC wC2 freshState "http://a.com/" none (-1) =
      ([], ⟨[], some "http://a.com/"⟩, []) := by
  constructor
  · exact c2_depth_semantics.1 fixC wC2 freshState "http://a.com/" "http://a.com/"
      ⟨"http://a.com/", some domC2⟩ domC2 (by decide) (by decide) (by decide) rfl rfl
  · exact c2_depth_semantics.2.1 fixC wC2 freshState "http://a.com/" none (-1) (by omega)

/-- C4: `process_results` passes the input through unchanged for an
absent or empty prompt; for a nonempty prompt it equals the
specification form: keep exactly the relevant blocks of each page in
their original order, score each surviving page by relevant count over
original block count, and drop pages with no relevant block. -/
theorem c4_process_results_spec (C : Collab) (rs : List PageRecord) (p : String) :
    process_results C rs none = rs ∧
    process_results C rs (some "") = rs ∧
    (p ≠ "" → process_results C rs (some p) = filterByPromptSpec C rs p) := by
  refine ⟨process_results_none C rs, process_results_emptyPrompt C rs, fun hp => ?_⟩
  rw [process_results_eq_filterMap C rs p hp, filterMap_eq_filterByPromptSpec]

/-- Witness for C4 on a concrete record list. -/
theorem c4_process_results_witness :
    process_results fixC
        [⟨"u", "t", ["analytics dashboard overview page here", "zqx wvu tsr qpo nml kji"], none⟩]
        none =
      [⟨"u", "t", ["analytics dashboard overview page here", "zqx wvu tsr qpo nml kji"], none⟩] ∧
    process_results fixC
        [⟨"u", "t", ["analytics dashboard overview page here", "zqx wvu tsr qpo nml kji"], none⟩]
        (some "") =
      [⟨"u", "t", ["analytics dashboard overview page here", "zqx wvu tsr qpo nml kji"], none⟩] ∧
    process_results fixC
        [⟨"u", "t", ["analytics dashboard overview page here", "zqx wvu tsr qpo nml kji"], none⟩]
        (some "analytics") =
      filterByPromptSpec fixC
        [⟨"u", "t", ["analytics dashboard overview page here", "zqx wvu tsr qpo nml kji"], none⟩]
        "analytics" := by
  refine ⟨(c4_process_results_spec fixC _ "analytics").1,
    (c4_process_results_spec fixC _ "analytics").2.1,
    (c4_process_results_spec fixC _ "analytics").2.2 (by decide)⟩

/-- C8 fails as stated: an absolute URL whose scheme is not spelled in
lowercase `http://`/`https://` is passed through `urljoin`, which can
rewrite it — here `HTTP://B.COM/X`, resolved against the base
`http://a.com/`, comes back with a lowercased scheme. -/
theorem c8_counterexample :
    hasScheme "HTTP://B.COM/X" = true ∧
    normalize_url (some "http://a.com/") "HTTP://B.COM/X" = some "http://B.COM/X" ∧
    ("http://B.COM/X" : String) ≠ "HTTP://B.COM/X" :=
  ⟨by decide, by decide, by decide⟩

/-- C8 amended: the empty URL normalizes to `None`; a URL without a
scheme is resolved against the session base via `urljoin`; a URL that
starts with lowercase `http://` or `https://` is returned unchanged
(absolute URLs with any other spelling or scheme go through `urljoin`,
which may rewrite them). -/
theorem c8_normalize_url_spec (base : Option String) (u : String) :
    normalize_url base "" = none ∧
    (u ≠ "" → hasScheme u = false → normalize_url base u = pyUrljoin (base.getD "") u) ∧
    ((pyStartsWith u "http://" = true ∨ pyStartsWith u "https://" = true) →
      normalize_url base u = some u) :=
  ⟨normalize_url_of_empty base, fun hne hs => normalize_url_of_noscheme hne hs,
   fun h => normalize_url_of_http h⟩

/-- Witness for C8 on concrete URLs. -/
theorem c8_normalize_url_witness :
    normalize_url (some "http://a.com/") "" = none ∧
    normalize_url (some "http://a.com/") "/page" = pyUrljoin "http://a.com/" "/page" ∧
    normalize_url (some "http://a.com/") "https://x.com/" = some "https://x.com/" :=
  ⟨(c8_normalize_url_spec (some "http://a.com/") "/page").1,
   (c8_normalize_url_spec (some "http://a.com/") "/page").2.1 (by decide) (by decide),
   (c8_normalize_url_spec (some "http://a.com/") "https://x.com/").2.2 (Or.inr (by decide))⟩

/-- C9: during content extraction an element text is collected iff its
length exceeds 20 characters — the extracted content is exactly the
length-filtered element-text list (the additional truthiness test in the
code is redundant), so a 20-character text is excluded and a
21-character text is included. -/
theorem c9_content_length_filter (dm : Dom) :
    extractContent dm = (rawTexts dm).filter (fun t => decide (20 < t.data.length)) ∧
    ∀ t, t ∈ extractContent dm ↔ t ∈ rawTexts dm ∧ 20 < t.data.length := by
  have hpt : ∀ t : String,
      (!t.isEmpty && decide (20 < t.data.length)) = decide (20 < t.data.length) := by
    intro t
    cases ht : t.isEmpty
    · simp
    · have ht' : t = "" := (String.isEmpty_iff t).mp ht
      subst ht'
      rfl
  have heq : extractContent dm = (rawTexts dm).filter (fun t => decide (20 < t.data.length)) := by
    unfold extractContent
    exact List.filter_congr (fun t _ => hpt t)
  refine ⟨heq, fun t => ?_⟩
  rw [heq, List.mem_filter]
  simp

/-- C10: `preprocess_text` is idempotent — its output is already
lowercase, free of special characters, with single internal blanks and
no boundary whitespace, so a second pass changes nothing. -/
theorem c10_preprocess_idem (s : String) :
    preprocess_text (preprocess_text s) = preprocess_text s := by
  have h1 : (preprocess_text s).data.map lowerChar = (preprocess_text s).data := by
    rw [List.map_congr_left (fun c hc => (preprocess_chars hc).1)]
    exact List.map_id _
  have h2 : replaceSpecial (preprocess_text s).data = (preprocess_text s).data := by
    unfold replaceSpecial
    rw [List.map_congr_left (fun c hc => ?_)]
    · exact List.map_id _
    · rcases (preprocess_chars hc).2.1 with hw | hsp
      · simp [hw]
      · subst hsp
        rfl
  have hchain : NoAdjSpace (preprocess_text s).data := by
    show NoAdjSpace (stripChars (collapseSpace (replaceSpecial (s.data.map lowerChar))))
    exact stripChars_chain (fun a b hab hba => hab ⟨hba.2, hba.1⟩) _
      (collapseSpace_noAdj (replaceSpecial (s.data.map lowerChar)))
  have h3 : collapseSpace (preprocess_text s).data = (preprocess_text s).data := by
    apply collapseSpace_fixed _ hchain
    intro c hc hs
    exact (preprocess_chars hc).2.2 hs
  have h4 : stripChars (preprocess_text s).data = (preprocess_text s).data := by
    apply stripChars_fixed
    · intro c hc
      exact stripChars_head (collapseSpace (replaceSpecial (s.data.map lowerChar))) c hc
    · intro c hc
      exact stripChars_last (collapseSpace (replaceSpecial (s.data.map lowerChar))) c hc
  show (⟨stripChars (collapseSpace (replaceSpecial ((preprocess_text s).data.map lowerChar)))⟩ : String)
    = preprocess_text s
  rw [h1, h2, h3, h4]

/-- C3 fails as stated: in the fixture crawl, the top-level record for
the linked page carries relevanceScore 1 although only 1 of its 2
originally extracted content blocks is relevant (the claim demands
1/2). Recursively reached pages are re-filtered at the enclosing level,
which recomputes their score over the already-filtered content. -/
theorem c3_counterexample :
    (scrape fixC wC3 freshState "http://a.com/" (some "analytics") 1).1 =
      [⟨"http://a.com/", "A", ["this paragraph talks about analytics today"], some 1⟩,
       ⟨"http://a.com/b", "B", ["analytics dashboard overview page here"], some 1⟩] ∧
    extractContent domB3 =
      ["analytics dashboard overview page here", "zqx wvu tsr qpo nml kji"] ∧
    ((extractContent domB3).filter
        (fun c => is_relevant_to_prompt fixC c "analytics" defaultThreshold)).length = 1 ∧
    (((extractContent domB3).filter
        (fun c => is_relevant_to_prompt fixC c "analytics" defaultThreshold)).length : ℚ)
      / ((extractContent domB3).length : ℚ) ≠ (1 : ℚ) := by
  refine ⟨by rw [run3_top], by decide, by decide, ?_⟩
  rw [show ((extractContent domB3).filter
      (fun c => is_relevant_to_prompt fixC c "analytics" defaultThreshold)).length = 1 from by decide]
  rw [show (extractContent domB3).length = 2 from by decide]
  norm_num

/-- C3 amended: under a truthy prompt, on the successful render path the
result splits into the seed page's own record — present iff it has a
relevant block, scored by relevant count over originally extracted
count — followed by the recursively gathered records, each of which is
re-filtered at this level and therefore carries relevanceScore 1; all
scores lie in [0, 1]. -/
theorem c3_amended_scores (C : Collab) (w : World) (st : CrawlState) (url u p : String)
    (pg : Page) (dm : Dom) (d : Int) (hp : p ≠ "")
    (hn : normalize_url (baseFix st url).base url = some u)
    (hv : is_valid_url u = true)
    (hs : ¬(u ∈ (baseFix st url).visited ∨ d < 0))
    (hr : renderW w u = some pg)
    (hd : pg.dom = some dm) :
    (∃ nested : List PageRecord,
      (scrape C w st url (some p) d).1 =
        (if 0 < ((extractContent dm).filter
            (fun c => is_relevant_to_prompt C c p defaultThreshold)).length then
           [{ url := pg.finalUrl, title := titleOf dm,
              content := (extractContent dm).filter
                (fun c => is_relevant_to_prompt C c p defaultThreshold),
              relevance_score := some
                ((((extractContent dm).filter
                    (fun c => is_relevant_to_prompt C c p defaultThreshold)).length : ℚ)
                  / ((extractContent dm).length : ℚ)) }]
         else []) ++
        nested.map (fun r => { url := r.url, title := r.title, content := r.content,
                               relevance_score := some 1 })) ∧
    (∀ r ∈ (scrape C w st url (some p) d).1,
      ∃ q : ℚ, r.relevance_score = some q ∧ 0 ≤ q ∧ q ≤ 1) := by
  have hrw : (scrape C w st url (some p) d).1 = process_results C
      (extract_data C w { visited := u :: (baseFix st url).visited, base := (baseFix st url).base }
        pg.dom pg.finalUrl (some p) d).1 (some p) := by
    rw [scrape_eq_render C w st url (some p) d u pg hn hv hs hr]
    simp only [optTruthy_some hp, if_true]
  constructor
  · by_cases hdep : 0 < d
    · refine ⟨(follow_links C w { visited := u :: (baseFix st url).visited,
                                  base := (baseFix st url).base }
        dm.links (some p) (d - 1)).1, ?_⟩
      rw [hrw]
      simp only [hd]
      rw [extract_eq_follow C w _ dm _ (some p) d hdep]
      rw [process_results_eq_filterMap _ _ _ hp]
      show ({ url := pg.finalUrl, title := titleOf dm, content := extractContent dm,
              relevance_score := none } ::
            (follow_links C w _ dm.links (some p) (d - 1)).1).filterMap (processedPage C p) = _
      rw [List.filterMap_cons]
      rw [filterMap_good C p _ (follow_output_good C w p hp (d - 1) dm.links _)]
      by_cases hk : 0 < ((extractContent dm).filter
          (fun c => is_relevant_to_prompt C c p defaultThreshold)).length
      · rw [show processedPage C p
            { url := pg.finalUrl, title := titleOf dm, content := extractContent dm,
              relevance_score := none } = some
            { url := pg.finalUrl, title := titleOf dm,
              content := (extractContent dm).filter
                (fun c => is_relevant_to_prompt C c p defaultThreshold),
              relevance_score := some
                ((((extractContent dm).filter
                    (fun c => is_relevant_to_prompt C c p defaultThreshold)).length : ℚ)
                  / ((extractContent dm).length : ℚ)) } from by
          unfold processedPage
          simp only [if_pos hk]]
        rw [if_pos hk]
        rfl
      · rw [show processedPage C p
            { url := pg.finalUrl, title := titleOf dm, content := extractContent dm,
              relevance_score := none } = none from by
          unfold processedPage
          simp only [if_neg hk]]
        rw [if_neg hk]
        rfl
    · refine ⟨[], ?_⟩
      rw [hrw]
      simp only [hd]
      rw [extract_eq_stop C w _ dm _ (some p) d hdep]
      rw [process_results_eq_filterMap _ _ _ hp]
      rw [List.filterMap_cons]
      by_cases hk : 0 < ((extractContent dm).filter
          (fun c => is_relevant_to_prompt C c p defaultThreshold)).length
      · rw [show processedPage C p
            { url := pg.finalUrl, title := titleOf dm, content := extractContent dm,
              relevance_score := none } = some
            { url := pg.finalUrl, title := titleOf dm,
              content := (extractContent dm).filter
                (fun c => is_relevant_to_prompt C c p defaultThreshold),
              relevance_score := some
                ((((extractContent dm).filter
                    (fun c => is_relevant_to_prompt C c p defaultThreshold)).length : ℚ)
                  / ((extractContent dm).length : ℚ)) } from by
          unfold processedPage
          simp only [if_pos hk]]
        rw [if_pos hk]
        rfl
      · rw [show processedPage C p
            { url := pg.finalUrl, title := titleOf dm, content := extractContent dm,
              relevance_score := none } = none from by
          unfold processedPage
          simp only [if_neg hk]]
        rw [if_neg hk]
        rfl
  · intro r hrr
    rw [hrw] at hrr
    exact process_output_score C _ p hp r hrr

/-- Witness for the amended C3 on the concrete two-page fixture. -/
theorem c3_amended_scores_witness :
    (∃ nested : List PageRecord,
      (scrape fixC wC3 freshState "http://a.com/" (some "analytics") 1).1 =
        (if 0 < ((extractContent domA3).filter
            (fun c => is_relevant_to_prompt fixC c "analytics" defaultThreshold)).length then
           [{ url := pgA3.finalUrl, title := titleOf domA3,
              content := (extractContent domA3).filter
                (fun c => is_relevant_to_prompt fixC c "analytics" defaultThreshold),
              relevance_score := some
                ((((extractContent domA3).filter
                    (fun c => is_relevant_to_prompt fixC c "analytics" defaultThreshold)).length : ℚ)
                  / ((extractContent domA3).length : ℚ)) }]
         else []) ++
        nested.map (fun r => { url := r.url, title := r.title, content := r.content,
                               relevance_score := some 1 })) ∧
    (∀ r ∈ (scrape fixC wC3 freshState "http://a.com/" (some "analytics") 1).1,
      ∃ q : ℚ, r.relevance_score = some q ∧ 0 ≤ q ∧ q ≤ 1) :=
  c3_amended_scores fixC wC3 freshState "http://a.com/" "http://a.com/" "analytics" pgA3 domA3 1
    (by decide) (by decide) (by decide) (by decide) rfl rfl

/-- C5: the relevance decision returns false whenever either
preprocessed input is empty, and otherwise fires exactly when one of the
three tiers does — TF-IDF similarity at least the threshold (a failed
similarity computation is a miss), keyword overlap, or partial keyword
containment — as stated by the specification-form predicate
`RelevantSpec`. -/
theorem c5_relevance_tiers (C : Collab) (text prompt : String) (threshold : ℚ) :
    is_relevant_to_prompt C text prompt threshold = true ↔
      RelevantSpec C text prompt threshold := by
  unfold is_relevant_to_prompt RelevantSpec
  by_cases h0 : text = "" ∨ prompt = ""
  · rw [if_pos h0]
    constructor
    · intro h; cases h
    · rintro ⟨ht, hp, -⟩
      rcases h0 with rfl | rfl
      · exact absurd rfl ht
      · exact absurd rfl hp
  · rw [if_neg h0]
    simp only []
    by_cases h1 : preprocess_text text = "" ∨ preprocess_text prompt = ""
    · rw [if_pos h1]
      constructor
      · intro h; cases h
      · rintro ⟨ht, hp, -⟩
        rcases h1 with h1 | h1
        · exact absurd h1 ht
        · exact absurd h1 hp
    · rw [if_neg h1]
      push_neg at h1
      rw [ite_chain_true]
      have htier1 : (match C.tfidf (preprocess_text prompt) (preprocess_text text) with
          | some sim => decide (threshold ≤ sim)
          | none => false) = true ↔
          (∃ sim, C.tfidf (preprocess_text prompt) (preprocess_text text) = some sim ∧
            threshold ≤ sim) := by
        rcases hm : C.tfidf (preprocess_text prompt) (preprocess_text text) with _ | sim
        · simp
        · simp
      have htier2 : 0 < ((extract_keywords C (preprocess_text prompt)).filter
            (fun wd => (extract_keywords C (preprocess_text text)).contains wd)).length ↔
          (∃ wd, IsKeyword C wd (preprocess_text prompt) ∧
            IsKeyword C wd (preprocess_text text)) := by
        constructor
        · intro hov
          obtain ⟨wd, hwd⟩ := List.exists_mem_of_length_pos hov
          exact ⟨wd, (mem_extract_keywords C prompt wd).mp (List.mem_filter.mp hwd).1,
            (mem_extract_keywords C text wd).mp (List.elem_iff.mp (List.mem_filter.mp hwd).2)⟩
        · rintro ⟨wd, hwp, hwt⟩
          exact List.length_pos_of_mem (List.mem_filter.mpr
            ⟨(mem_extract_keywords C prompt wd).mpr hwp,
             List.elem_iff.mpr ((mem_extract_keywords C text wd).mpr hwt)⟩)
      have htier3 : ((extract_keywords C (preprocess_text prompt)).any fun p_word =>
            (extract_keywords C (preprocess_text text)).any fun t_word =>
              (decide (3 < p_word.data.length) && pyInStr p_word t_word)
              || (decide (3 < t_word.data.length) && pyInStr t_word p_word)) = true ↔
          (∃ pw tw, IsKeyword C pw (preprocess_text prompt) ∧
            IsKeyword C tw (preprocess_text text) ∧
            ((3 < pw.data.length ∧ pyInStr pw tw = true) ∨
             (3 < tw.data.length ∧ pyInStr tw pw = true))) := by
        rw [List.any_eq_true]
        constructor
        · rintro ⟨pw, hpw, hinner⟩
          rw [List.any_eq_true] at hinner
          obtain ⟨tw, htw, hcond⟩ := hinner
          refine ⟨pw, tw, (mem_extract_keywords C prompt pw).mp hpw,
            (mem_extract_keywords C text tw).mp htw, ?_⟩
          rw [Bool.or_eq_true, Bool.and_eq_true, Bool.and_eq_true] at hcond
          rcases hcond with ⟨hl, hr⟩ | ⟨hl, hr⟩
          · exact Or.inl ⟨of_decide_eq_true hl, hr⟩
          · exact Or.inr ⟨of_decide_eq_true hl, hr⟩
        · rintro ⟨pw, tw, hpw, htw, hcond⟩
          refine ⟨pw, (mem_extract_keywords C prompt pw).mpr hpw, ?_⟩
          rw [List.any_eq_true]
          refine ⟨tw, (mem_extract_keywords C text tw).mpr htw, ?_⟩
          rw [Bool.or_eq_true, Bool.and_eq_true, Bool.and_eq_true]
          rcases hcond with ⟨hl, hr⟩ | ⟨hl, hr⟩
          · exact Or.inl ⟨decide_eq_true hl, hr⟩
          · exact Or.inr ⟨decide_eq_true hl, hr⟩
      rw [htier1, htier2, htier3]
      constructor
      · intro h
        exact ⟨h1.1, h1.2, h⟩
      · rintro ⟨-, -, h⟩
        exact h

/-- C6 fails as stated: in the branching fixture (every page has at most
2 links, depth budget 1) the crawl performs 3 render calls, exceeding
`min(|reachable same-origin URLs|, branching ^ depth) ≤ 2¹ = 2`. -/
theorem c6_counterexample :
    linksBoundedB wC6 2 = true ∧
    (scrape fixC wC6 freshState "http://a.com/" none 1).2.2.length = 3 ∧
    ¬((scrape fixC wC6 freshState "http://a.com/" none 1).2.2.length ≤
        min ((setOf (Reachable wC6 "http://a.com/")).ncard) (2 ^ (1 : Nat))) := by
  refine ⟨by decide, by rw [run6_top]; rfl, ?_⟩
  rw [run6_top]
  intro hcon
  have hlen : (([⟨"http://a.com/", "A", [], none⟩,
        ⟨"http://a.com/b", "L", [], none⟩, ⟨"http://a.com/c", "L", [], none⟩],
       (⟨["http://a.com/c", "http://a.com/b", "http://a.com/"], some "http://a.com/"⟩ : CrawlState),
       ["http://a.com/", "http://a.com/b", "http://a.com/c"]) :
         List PageRecord × CrawlState × List String).2.2.length = 3 := rfl
  rw [hlen] at hcon
  have hmin : min ((setOf (Reachable wC6 "http://a.com/")).ncard) (2 ^ (1 : Nat)) ≤ 2 :=
    le_trans (min_le_right _ _) (by norm_num)
  omega

/-- C6 amended: for every world the crawl from a fresh session
terminates (the controller is a total function), and the number of
render calls is bounded by
`min(|reachable same-origin URLs|, 1 + B + ⋯ + B^depth)` where `B`
bounds the per-page branching. -/
theorem c6_render_bound (C : Collab) (w : World) (seed : String) (prompt : Option String)
    (d : Int) (B : Nat) (hB : linksBoundedB w B = true) :
    (scrape C w freshState seed prompt d).2.2.length ≤
      min ((setOf (Reachable w seed)).ncard) (geomSum B d.toNat) := by
  by_cases hseed : seed = ""
  · subst hseed
    rw [scrape_eq_normfail C w freshState "" prompt d rfl]
    exact Nat.zero_le _
  · refine le_min ?_ ?_
    · have hInv := (stInv_all C w).1 freshState seed prompt d
      have hReach := (rendered_reachable C w seed hseed).1 freshState seed prompt d
        (Or.inr ⟨rfl, rfl⟩) (fun u' hn hv => Reachable.seed u' hn hv)
      exact length_le_ncard hInv.2.1 (fun u hu => hReach u hu) (reachable_finite w seed)
    · exact (renderCount_all C w B (linksBounded_of_boolean hB)).1 freshState seed prompt d

/-- Witness for the amended C6 on the branching fixture. -/
theorem c6_render_bound_witness :
    linksBoundedB wC6 2 = true ∧
    (scrape fixC wC6 freshState "http://a.com/" none 1).2.2.length ≤
      min ((setOf (Reachable wC6 "http://a.com/")).ncard) (geomSum 2 (1 : Int).toNat) :=
  ⟨by decide, c6_render_bound fixC wC6 "http://a.com/" none 1 2 (by decide)⟩

/-- C7 fails as stated: an invalid seed and a prompt that matches
nothing produce the identical top-level return value, the empty list;
the two runs differ only in side effects (the no-match run renders the
seed, the invalid run renders nothing). -/
theorem c7_counterexample :
    (scrape fixC wIrr freshState "notaurl" (some "analytics") 1).1 = [] ∧
    (scrape fixC wIrr freshState "http://a.com/" (some "analytics") 1).1 = [] ∧
    (scrape fixC wIrr freshState "notaurl" (some "analytics") 1).1 =
      (scrape fixC wIrr freshState "http://a.com/" (some "analytics") 1).1 ∧
    is_valid_url "notaurl" = false ∧
    worldIrrelevantB fixC wIrr "analytics" = true ∧
    (scrape fixC wIrr freshState "notaurl" (some "analytics") 1).2.2 = [] ∧
    (scrape fixC wIrr freshState "http://a.com/" (some "analytics") 1).2.2 = ["http://a.com/"] := by
  refine ⟨by rw [run7_invalid], by rw [run7_nomatch], ?_, by decide, by decide,
    by rw [run7_invalid], by rw [run7_nomatch]⟩
  rw [run7_invalid, run7_nomatch]

/-- C7 amended: both outcomes produce the same top-level return value,
the empty list — an invalid seed returns `[]` without any render call,
and a prompt matching no block of the site returns `[]` after
rendering — so the return value alone cannot distinguish them. -/
theorem c7_empty_indistinguishable :
    (∀ (C : Collab) (w : World) (st : CrawlState) (url : String) (prompt : Option String)
        (d : Int) (u : String),
      normalize_url (baseFix st url).base url = some u → is_valid_url u = false →
      scrape C w st url prompt d = ([], baseFix st url, [])) ∧
    (∀ (C : Collab) (w : World) (st : CrawlState) (url p : String) (d : Int),
      p ≠ "" → worldIrrelevantB C w p = true →
      (scrape C w st url (some p) d).1 = []) := by
  constructor
  · intro C w st url prompt d u hn hv
    exact scrape_eq_invalid C w st url prompt d u hn (by simp [hv])
  · intro C w st url p d hp hw
    exact (irrelevant_world_empty C w p hp (worldIrrelevant_of_boolean hw)).1 st url (some p) d rfl

/-- Witness for the amended C7 on the no-match fixture. -/
theorem c7_empty_indistinguishable_witness :
    scrape fixC wIrr freshState "notaurl" (some "analytics") 1 =
      ([], baseFix freshState "notaurl", []) ∧
    (scrape fixC wIrr freshState "http://a.com/" (some "analytics") 1).1 = [] := by
  constructor
  · exact c7_empty_indistinguishable.1 fixC wIrr freshState "notaurl" (some "analytics") 1
      "notaurl" (by decide) (by decide)
  · exact c7_empty_indistinguishable.2 fixC wIrr freshState "http://a.com/" "analytics" 1
      (by decide) (by decide)

end Rufus
